import Mathlib

/-!
Verification of the xmigrate migration engine (`src/xmigrate/main.py`,
`src/xmigrate/xml_mapper.py`) against its natural-language specification.

The development shallowly embeds the data model and the operations of the
engine: XML records become a finite `Elem` tree, Python `dict`s become
association lists with in-place-overwrite insertion (preserving Python's
insertion-order semantics), Python exceptions become explicit error results
(`Except` for pure transformation code, a state-preserving `StepRes` for the
walker), and the network collaborators become explicit destination state plus
oracle bits on the input records for the eventually-consistent listing reads.
-/

set_option maxHeartbeats 1600000

namespace Xmigrate

/-! ## Association lists with Python `dict` semantics

`alInsert` overwrites in place when the key is present (keeping its position,
as a Python `dict` does) and appends at the end otherwise; `alErase` removes
the binding if present (`del d[k]` guarded by `k in d`). -/

def alLookup {α β : Type} [DecidableEq α] : List (α × β) → α → Option β
  | [], _ => none
  | (k, v) :: t, k' => if k = k' then some v else alLookup t k'

def alInsert {α β : Type} [DecidableEq α] : List (α × β) → α → β → List (α × β)
  | [], k, v => [(k, v)]
  | (k0, v0) :: t, k, v => if k0 = k then (k, v) :: t else (k0, v0) :: alInsert t k v

def alErase {α β : Type} [DecidableEq α] : List (α × β) → α → List (α × β)
  | [], _ => []
  | (k0, v0) :: t, k => if k0 = k then t else (k0, v0) :: alErase t k

@[simp]
theorem alLookup_nil {α β : Type} [DecidableEq α] (k : α) :
    alLookup ([] : List (α × β)) k = none := rfl

@[simp]
theorem alLookup_cons {α β : Type} [DecidableEq α] (k0 : α) (v0 : β) (t : List (α × β)) (k : α) :
    alLookup ((k0, v0) :: t) k = if k0 = k then some v0 else alLookup t k := rfl

theorem alLookup_insert_self {α β : Type} [DecidableEq α]
    (m : List (α × β)) (k : α) (v : β) : alLookup (alInsert m k v) k = some v := by
  induction m with
  | nil => simp [alInsert]
  | cons h t ih =>
    obtain ⟨k0, v0⟩ := h
    by_cases hk : k0 = k <;> simp [alInsert, hk, ih]

theorem alLookup_insert_ne {α β : Type} [DecidableEq α]
    (m : List (α × β)) (k k' : α) (v : β) (h : k ≠ k') :
    alLookup (alInsert m k v) k' = alLookup m k' := by
  induction m with
  | nil => simp [alInsert, h]
  | cons hd t ih =>
    obtain ⟨k0, v0⟩ := hd
    by_cases hk : k0 = k
    · subst hk
      simp [alInsert, h]
    · simp [alInsert, hk, ih]

theorem alInsert_self {α β : Type} [DecidableEq α]
    (m : List (α × β)) (k : α) (v : β) (h : alLookup m k = some v) :
    alInsert m k v = m := by
  induction m with
  | nil => simp [alLookup] at h
  | cons hd t ih =>
    obtain ⟨k0, v0⟩ := hd
    by_cases hk : k0 = k
    · subst hk
      simp [alLookup] at h
      simp [alInsert, h]
    · simp [alLookup, hk] at h
      simp [alInsert, hk, ih h]

/-! ## Python string containment and single replacement

`rewrite_uris` uses Python's substring test (`source_path not in uri`) and
`str.replace(source, destination, count=1)`; both are modelled on the
character list underlying the string. -/

def isPrefixCh : List Char → List Char → Bool
  | [], _ => true
  | _ :: _, [] => false
  | a :: as, b :: bs => if a = b then isPrefixCh as bs else false

def containsSub : List Char → List Char → Bool
  | [], needle => needle.isEmpty
  | h :: t, needle => isPrefixCh needle (h :: t) || containsSub t needle

def replaceFirstCh : List Char → List Char → List Char → List Char
  | [], old, new => if old.isEmpty then new else []
  | h :: t, old, new =>
    if isPrefixCh old (h :: t) then new ++ (h :: t).drop old.length
    else h :: replaceFirstCh t old new

def strContains (hay needle : String) : Bool := containsSub hay.data needle.data

def strReplaceFirst (hay old new : String) : String :=
  ⟨replaceFirstCh hay.data old.data new.data⟩

/-! ## Resource kinds and the identifier map (`xml_mapper.py`) -/

inductive XnatType where
  | server
  | project
  | subject
  | experiment
  | scan
  | assessor
  | reconstruction
  | resource
  | in_resource
  | out_resource
  | file
deriving DecidableEq, Repr

/-- The `ids_to_map` routing table of `XMLMapper.__post_init__`: the partition
of `id_map` that a write with a given `map_type` actually targets.  Keys not
present in the Python dict are `none` (a lookup there raises `KeyError`). -/
def idsToMap : XnatType → Option XnatType
  | .project => some .project
  | .subject => some .subject
  | .experiment => some .experiment
  | .assessor => some .experiment
  | .reconstruction => some .reconstruction
  | .scan => some .scan
  | _ => none

/-- `id_map`: a `defaultdict` from `XnatType` to a source-id → destination-id
dict.  Reading an absent kind yields the empty partition. -/
def IdMap : Type := List (XnatType × List (String × String))

instance : DecidableEq IdMap := by
  unfold IdMap
  infer_instance

def idMapGet (m : IdMap) (t : XnatType) : List (String × String) :=
  (alLookup m t).getD []

def idMapSet (m : IdMap) (t : XnatType) (part : List (String × String)) : IdMap :=
  alInsert m t part

/-- `XMLMapper.update_id_map`: store `source ↦ str(destination)` in the
partition selected by `ids_to_map[map_type]`; `none` models the `KeyError`
raised when `map_type` has no entry in `ids_to_map`. -/
def update_id_map (m : IdMap) (source destination : String) (map_type : XnatType) :
    Option IdMap :=
  (idsToMap map_type).map fun t => idMapSet m t (alInsert (idMapGet m t) source destination)

/-! ## XML elements

`xml.etree` elements as a finite tree: tag, attribute dict, text, children.
`findall(tag)` on an element matches direct children only, in document
order, which is how `map_xml` and `rewrite_uris` use it. -/

inductive Elem where
  | mk (tag : String) (attrib : List (String × String)) (text : Option String)
      (children : List Elem)

def Elem.tag : Elem → String
  | .mk t _ _ _ => t

def Elem.attrib : Elem → List (String × String)
  | .mk _ a _ _ => a

def Elem.text : Elem → Option String
  | .mk _ _ x _ => x

def Elem.children : Elem → List Elem
  | .mk _ _ _ c => c

def getAttr (e : Elem) (k : String) : Option String := alLookup e.attrib k

def setAttr (e : Elem) (k v : String) : Elem :=
  .mk e.tag (alInsert e.attrib k v) e.text e.children

def delAttr (e : Elem) (k : String) : Elem :=
  .mk e.tag (alErase e.attrib k) e.text e.children

def setText (e : Elem) (t : Option String) : Elem :=
  .mk e.tag e.attrib t e.children

def setTag (e : Elem) (t : String) : Elem :=
  .mk t e.attrib e.text e.children

def setChildren (e : Elem) (cs : List Elem) : Elem :=
  .mk e.tag e.attrib e.text cs

/-! ## Namespaced tag names used by `XMLMapper` -/

def xnatNS : String := "http://nrg.wustl.edu/xnat"

def icrNS : String := "http://icr.ac.uk/icr"

def nsTag (ns tagName : String) : String := "\x7b" ++ ns ++ "\x7d" ++ tagName

def imageScanDataTag : String := nsTag xnatNS "imageScanData"

def modalityTag : String := nsTag xnatNS "modality"

def otherScanTag : String := "xnat:OtherDicomScan"

def projectNameTag : String := nsTag xnatNS "name"

/-- `modality_to_scan` from `XMLMapper.__post_init__`: the fixed
modality → scan-subtype table. -/
def modality_to_scan : List (String × String) :=
  [("MR", nsTag xnatNS "MRScan"),
   ("CT", nsTag xnatNS "CTScan"),
   ("US", nsTag xnatNS "USScan"),
   ("PT", nsTag xnatNS "PETScan"),
   ("NM", nsTag xnatNS "NMScan")]

/-- `tags_to_delete`: child collections stripped before submission. -/
def tags_to_delete : List String :=
  [nsTag xnatNS "experiments",
   nsTag xnatNS "scans",
   nsTag xnatNS "assessors",
   nsTag xnatNS "reconstructions",
   nsTag xnatNS "prearchivePath",
   nsTag xnatNS "sharing"]

/-- `tags_to_remap`: identifier-reference fields and the resource kind whose
identifier-map partition resolves them. -/
def tags_to_remap : List (String × XnatType) :=
  [(nsTag icrNS "subjectID", .subject),
   (nsTag xnatNS "subject_ID", .subject),
   (nsTag xnatNS "image_session_ID", .experiment),
   (nsTag xnatNS "imageSession_ID", .experiment),
   (nsTag xnatNS "session_id", .experiment),
   (nsTag xnatNS "scanID", .scan),
   (nsTag xnatNS "imageScan_ID", .scan)]

/-! ## `rewrite_uris` -/

/-- `XMLMapper.rewrite_uris`: if the element has no `URI` attribute it is
returned unchanged; otherwise a `ValueError` is raised when `source_path`
does not occur in the attribute value, and else the first occurrence of
`source_path` is replaced by `destination_path`. -/
def rewrite_uris (child : Elem) (source_path destination_path : String) :
    Except String Elem :=
  match getAttr child "URI" with
  | none => .ok child
  | some uri =>
    if strContains uri source_path then
      .ok (setAttr child "URI" (strReplaceFirst uri source_path destination_path))
    else
      .error ("source_archive " ++ source_path ++ " not found in URI " ++ uri ++ ".")

/-! ## Scan subtype inference -/

/-- The modality texts collected by `map_xml`: child elements tagged
`xnat:modality` whose text is truthy (present and nonempty). -/
def extractModalities (children : List Elem) : List String :=
  (children.filter (fun c => c.tag = modalityTag)).filterMap
    (fun c => match c.text with
      | none => none
      | some s => if s = "" then none else some s)

/-- The scan-subtype inference of `map_xml` (line 191): with exactly one
modality recorded, look it up in `modality_to_scan` falling back to the
generic `xnat:OtherDicomScan`; with zero or several modalities use the
generic fallback directly. -/
def inferScanTag (modalities : List String) : String :=
  match modalities with
  | [m] => (alLookup modality_to_scan m).getD otherScanTag
  | _ => otherScanTag

/-! ## Identifier-reference remapping -/

/-- One identifier-reference replacement (`map_xml` lines 204–208): the
child's text is looked up in the given identifier-map partition; a missing
key (including a `None` text, which is never a key of the partition) raises
`ValueError`. -/
def remapChildText (part : List (String × String)) (text : Option String) :
    Except String (Option String) :=
  match text with
  | none => .error "Tag: no new value for None found."
  | some t =>
    match alLookup part t with
    | some v => .ok (some v)
    | none => .error ("Tag: no new value for " ++ t ++ " found.")

def remapTexts (part : List (String × String)) (tagName : String) :
    List Elem → Except String (List Elem)
  | [] => .ok []
  | c :: rest =>
    if c.tag = tagName then
      match remapChildText part c.text with
      | .error e => .error e
      | .ok t' =>
        match remapTexts part tagName rest with
        | .error e => .error e
        | .ok cs => .ok (setText c t' :: cs)
    else
      match remapTexts part tagName rest with
      | .error e => .error e
      | .ok cs => .ok (c :: cs)

def remapOneTag (idMap : IdMap) (tagName : String) (ty : XnatType) (e : Elem) :
    Except String Elem :=
  match idsToMap ty with
  | none => .error "KeyError: ids_to_map"
  | some mid =>
    match remapTexts (idMapGet idMap mid) tagName e.children with
    | .error er => .error er
    | .ok cs => .ok (setChildren e cs)

def remapAll (idMap : IdMap) : List (String × XnatType) → Elem → Except String Elem
  | [], e => .ok e
  | (tagName, ty) :: rest, e =>
    match remapOneTag idMap tagName ty e with
    | .error er => .error er
    | .ok e' => remapAll idMap rest e'

/-! ## URI rewriting over children -/

def rewriteTagged (sp dp tagName : String) : List Elem → Except String (List Elem)
  | [] => .ok []
  | c :: rest =>
    if c.tag = tagName then
      match rewrite_uris c sp dp with
      | .error e => .error e
      | .ok c' =>
        match rewriteTagged sp dp tagName rest with
        | .error e => .error e
        | .ok cs => .ok (c' :: cs)
    else
      match rewriteTagged sp dp tagName rest with
      | .error e => .error e
      | .ok cs => .ok (c :: cs)

def rewriteNested (sp dp outerTag innerTag : String) : List Elem → Except String (List Elem)
  | [] => .ok []
  | c :: rest =>
    if c.tag = outerTag then
      match rewriteTagged sp dp innerTag c.children with
      | .error e => .error e
      | .ok cs =>
        match rewriteNested sp dp outerTag innerTag rest with
        | .error e => .error e
        | .ok rest' => .ok (setChildren c cs :: rest')
    else
      match rewriteNested sp dp outerTag innerTag rest with
      | .error e => .error e
      | .ok rest' => .ok (c :: rest')

/-! ## Project information and `map_xml` -/

/-- `ProjectInfo` from `xml_mapper.py`. -/
structure ProjectInfo where
  id : String
  secondary_id : String
  project_name : String
  archive_path : String
deriving DecidableEq

/-- The exception-free first part of `map_xml` in source order: project-field
overwrite (rule 1), attribute fixing (`project` forced to the destination id,
`ID` deleted except for projects and scans; rule 2), scan-subtype inference
(rule 3) and child-collection deletion (rule 4). -/
def preSteps (destination : ProjectInfo) (element : Elem) (resource_type : XnatType) :
    Elem :=
  let element :=
    if resource_type = .project then
      let e1 := setAttr element "ID" destination.id
      let e2 := setAttr e1 "secondary_ID" destination.secondary_id
      setChildren e2 (e2.children.map fun c =>
        if c.tag = projectNameTag then setText c (some destination.project_name) else c)
    else element
  let element := setAttr element "project" destination.id
  let element :=
    if resource_type = .project ∨ resource_type = .scan then element
    else delAttr element "ID"
  let element :=
    if element.tag = imageScanDataTag then
      setTag element (inferScanTag (extractModalities element.children))
    else element
  setChildren element
    (element.children.filter fun c => ¬ tags_to_delete.contains c.tag)

/-- `XMLMapper.map_xml`, step by step in source order: the exception-free
`preSteps` (project fields, attributes, scan subtype, child deletion), then
identifier-reference remapping (fatal on a missing key), and URI rewriting in
`file`, `out/file` and `resources/resource` children. -/
def map_xml (source destination : ProjectInfo) (idMap : IdMap) (element : Elem)
    (resource_type : XnatType) : Except String Elem :=
  let element := preSteps destination element resource_type
  match remapAll idMap tags_to_remap element with
  | .error e => .error e
  | .ok element =>
    let source_path := source.archive_path ++ "/" ++ source.id
    let destination_path := destination.archive_path ++ "/" ++ destination.id
    match rewriteTagged source_path destination_path (nsTag xnatNS "file") element.children with
    | .error e => .error e
    | .ok cs =>
      let element := setChildren element cs
      match rewriteNested source_path destination_path (nsTag xnatNS "out")
          (nsTag xnatNS "file") element.children with
      | .error e => .error e
      | .ok cs =>
        let element := setChildren element cs
        match rewriteNested source_path destination_path (nsTag xnatNS "resources")
            (nsTag xnatNS "resource") element.children with
        | .error e => .error e
        | .ok cs => .ok (setChildren element cs)

end Xmigrate

namespace Xmigrate

/-! ## Claims about the attribute transformer -/

/-- C5 counterexample: the claim states that `rewrite_uris` raises exactly
when the source root is not a prefix of the URI value.  For the URI `"xab"`
and source root `"ab"`, the source root is not a prefix, yet the code
succeeds (its test is substring containment) and rewrites the occurrence in
the middle of the value. -/
theorem c5_counterexample :
    rewrite_uris (Elem.mk "fileref" [("URI", "xab")] none []) "ab" "cd"
      = Except.ok (Elem.mk "fileref" [("URI", "xcd")] none []) ∧
    isPrefixCh "ab".data "xab".data = false := by
  exact ⟨rfl, rfl⟩

/-- C5 (amended): an element without a `URI` attribute passes through
unchanged; otherwise `rewrite_uris` raises a fatal error exactly when the
source root does not occur as a substring of the value, and on success it
replaces the first occurrence of the source root (wherever it occurs) with
the destination root. -/
theorem c5_theorem (child : Elem) (sp dp : String) :
    (getAttr child "URI" = none → rewrite_uris child sp dp = .ok child) ∧
    (∀ uri, getAttr child "URI" = some uri →
      (strContains uri sp = true →
        rewrite_uris child sp dp = .ok (setAttr child "URI" (strReplaceFirst uri sp dp))) ∧
      (strContains uri sp = false → ∃ msg, rewrite_uris child sp dp = .error msg)) := by
  constructor
  · intro h
    unfold rewrite_uris
    rw [h]
  · intro uri h
    constructor
    · intro hc
      unfold rewrite_uris
      rw [h]
      simp [hc]
    · intro hc
      unfold rewrite_uris
      rw [h]
      simp [hc]

/-- C5 witness: the amended theorem evaluated at an element whose URI starts
with the source root, and at one without a URI attribute. -/
theorem c5_witness :
    rewrite_uris (Elem.mk "fileref" [("URI", "ab/x")] none []) "ab" "cd"
      = .ok (setAttr (Elem.mk "fileref" [("URI", "ab/x")] none []) "URI"
          (strReplaceFirst "ab/x" "ab" "cd")) ∧
    rewrite_uris (Elem.mk "fileref" [] none []) "ab" "cd"
      = .ok (Elem.mk "fileref" [] none []) := by
  refine ⟨((c5_theorem (Elem.mk "fileref" [("URI", "ab/x")] none []) "ab" "cd").2
    "ab/x" rfl).1 rfl, (c5_theorem (Elem.mk "fileref" [] none []) "ab" "cd").1 rfl⟩

/-- C6: scan-subtype inference.  With exactly one recorded modality, the
subtype is the one given by the fixed `modality_to_scan` table; with zero or
several modalities it is the generic fallback `xnat:OtherDicomScan`. -/
theorem c6_theorem (ms : List String) :
    (∀ m t, ms = [m] → alLookup modality_to_scan m = some t → inferScanTag ms = t) ∧
    (ms.length ≠ 1 → inferScanTag ms = otherScanTag) := by
  constructor
  · rintro m t rfl hl
    unfold inferScanTag
    simp [hl]
  · intro hl
    match ms with
    | [] => rfl
    | [m] => simp at hl
    | a :: b :: t => rfl

/-- C6 witness: the theorem evaluated at one `MR` modality (specific subtype)
and at a two-modality list (generic fallback). -/
theorem c6_witness :
    inferScanTag ["MR"] = nsTag xnatNS "MRScan" ∧
    inferScanTag ["MR", "CT"] = otherScanTag := by
  exact ⟨( c6_theorem ["MR"]).1 "MR" (nsTag xnatNS "MRScan") rfl rfl,
    ( c6_theorem ["MR", "CT"]).2 (by decide)⟩

/-- C7: identifier-reference remapping.  When the identifier map's partition
has an entry for the field's text, the text is replaced by that entry; when
the key is missing (including a `None` text), the transformation fails with a
fatal mapping error, never a soft default or a silent pass-through. -/
theorem c7_theorem (part : List (String × String)) (text : Option String) :
    (∀ v, text.bind (fun t => alLookup part t) = some v →
      remapChildText part text = .ok (some v)) ∧
    (text.bind (fun t => alLookup part t) = none →
      ∃ msg, remapChildText part text = .error msg) := by
  constructor
  · intro v hv
    match text with
    | none => simp [Option.bind] at hv
    | some t =>
      simp [Option.bind] at hv
      simp [remapChildText, hv]
  · intro hn
    match text with
    | none => exact ⟨_, rfl⟩
    | some t =>
      simp [Option.bind] at hn
      exact ⟨"Tag: no new value for " ++ t ++ " found.", by simp [remapChildText, hn]⟩

/-- C7 witness: the theorem evaluated at a one-entry partition, on a present
key (replaced) and on an absent key (fatal error). -/
theorem c7_witness :
    remapChildText [("S1", "D1")] (some "S1") = .ok (some "D1") ∧
    ∃ msg, remapChildText [("S1", "D1")] (some "S2") = .error msg := by
  exact ⟨(c7_theorem [("S1", "D1")] (some "S1")).1 "D1" rfl,
    (c7_theorem [("S1", "D1")] (some "S2")).2 rfl⟩

end Xmigrate

namespace Xmigrate

/-! ## Walker state (`main.py`, class `Migration`)

The `Migration` instance attributes that the tree walk reads and writes:
the current mapper's `id_map`, the per-kind failure counters, the three
sharing tables, plus an explicit model of the destination server's visible
state and an event trace recording the `POST`-create calls, the sharing
grants and the invocation of `_apply_sharing`.  `overwroteDifferent` is pure
instrumentation inside `update_id_map`: it latches when a write overwrites an
existing (kind, source-id) entry with a different destination value. -/

structure SharingInfo where
  owner : Option String
  projects : List String
  sourceId : Option String
  labelVal : Option String
deriving DecidableEq

/-- The default sharing record of `_create_subject`
(`{"owner": None, "projects": [], "source_id": subject.id}`). -/
def defaultSubjSharing (sourceId : String) : SharingInfo :=
  { owner := none, projects := [], sourceId := some sourceId, labelVal := none }

/-- The default sharing record of `_create_experiment` / `_create_assessor`
(`{"owner": None, "projects": []}`). -/
def defaultExpSharing : SharingInfo :=
  { owner := none, projects := [], sourceId := none, labelVal := none }

structure DSubj where
  proj : String
  slabel : String
  sid : String
deriving DecidableEq

structure DExp where
  proj : String
  slabel : String
  elabel : String
  eid : String
deriving DecidableEq

structure DScan where
  proj : String
  slabel : String
  elabel : String
  scanId : String
deriving DecidableEq

structure DAssess where
  proj : String
  slabel : String
  elabel : String
  alabel : String
  aid : String
deriving DecidableEq

/-- The destination server's visible resources: project ids, and the
subjects, experiments, scans and assessors reachable through the listing
API.  Creation appends; nothing is removed. -/
structure DestState where
  projects : List String
  subjects : List DSubj
  experiments : List DExp
  scans : List DScan
  assessors : List DAssess
deriving DecidableEq

def destSubjFind (d : DestState) (p lbl : String) : Option DSubj :=
  d.subjects.find? fun x => decide (x.proj = p ∧ x.slabel = lbl)

def destExpFind (d : DestState) (p slbl elbl : String) : Option DExp :=
  d.experiments.find? fun x => decide (x.proj = p ∧ x.slabel = slbl ∧ x.elabel = elbl)

def destScanFind (d : DestState) (p slbl elbl scanId : String) : Option DScan :=
  d.scans.find? fun x => decide (x.proj = p ∧ x.slabel = slbl ∧ x.elabel = elbl ∧ x.scanId = scanId)

def destAssessFind (d : DestState) (p slbl elbl albl : String) : Option DAssess :=
  d.assessors.find? fun x => decide (x.proj = p ∧ x.slabel = slbl ∧ x.elabel = elbl ∧ x.alabel = albl)

inductive CreateCall where
  | projectC (id : String)
  | subjectC (proj slbl : String)
  | experimentC (proj slbl elbl : String)
  | scanC (proj slbl elbl scanId : String)
  | assessorC (proj slbl elbl albl : String)
deriving DecidableEq

inductive Event where
  | created (c : CreateCall)
  | grantIssued (kind : XnatType) (owner : Option String) (destId projId lbl : String)
  | sharingInvoked
deriving DecidableEq

structure MigState where
  idMap : IdMap
  doneMaps : List IdMap
  subjFailed : Nat
  expFailed : Nat
  scanFailed : Nat
  assessFailed : Nat
  subjectSharing : List (String × SharingInfo)
  experimentSharing : List (String × SharingInfo)
  assessorSharing : List (String × SharingInfo)
  dest : DestState
  events : List Event
  overwroteDifferent : Bool
deriving DecidableEq

/-- The fresh state of a `Migration` object after `__post_init__`, against a
given initial destination state. -/
def initMigState (d : DestState) : MigState :=
  { idMap := [], doneMaps := [], subjFailed := 0, expFailed := 0, scanFailed := 0,
    assessFailed := 0, subjectSharing := [], experimentSharing := [],
    assessorSharing := [], dest := d, events := [], overwroteDifferent := false }

/-- Result of one walker step: Python control flow with exceptions, keeping
the state at the point the exception escaped. -/
inductive StepRes where
  | ok (s : MigState)
  | err (e : String) (s : MigState)
deriving DecidableEq

def StepRes.state : StepRes → MigState
  | .ok s => s
  | .err _ s => s

def StepRes.isOk : StepRes → Bool
  | .ok _ => true
  | .err _ _ => false

def StepRes.then (r : StepRes) (f : MigState → StepRes) : StepRes :=
  match r with
  | .ok s => f s
  | .err e s => .err e s

@[simp]
theorem then_ok (s : MigState) (f : MigState → StepRes) :
    (StepRes.ok s).then f = f s := rfl

@[simp]
theorem then_err (e : String) (s : MigState) (f : MigState → StepRes) :
    (StepRes.err e s).then f = .err e s := rfl

/-- Sequential processing of a list of resources: an uncaught exception in
one step aborts the remainder, mirroring the `for` loops of
`_create_resources`. -/
def walkList {α : Type} (f : α → MigState → StepRes) : List α → MigState → StepRes
  | [], st => .ok st
  | a :: rest, st => (f a st).then (walkList f rest)

@[simp]
theorem walkList_nil {α : Type} (f : α → MigState → StepRes) (st : MigState) :
    walkList f [] st = .ok st := rfl

@[simp]
theorem walkList_cons {α : Type} (f : α → MigState → StepRes) (a : α) (rest : List α)
    (st : MigState) : walkList f (a :: rest) st = (f a st).then (walkList f rest) := rfl

theorem walkList_append {α : Type} (f : α → MigState → StepRes) (l₁ l₂ : List α)
    (st : MigState) :
    walkList f (l₁ ++ l₂) st = (walkList f l₁ st).then (walkList f l₂) := by
  induction l₁ generalizing st with
  | nil => simp
  | cons a t ih =>
    simp only [List.cons_append, walkList_cons]
    cases f a st with
    | ok s => simp [ih]
    | err e s => simp

/-! ## Source records

The records fetched from the source server, with oracle bits for the
eventually-consistent destination listing reads: `lagged`/`lagged1`/`lagged2`
say whether the corresponding `subjects[...]`/`experiments[...]`/
`assessors[...]` lookup right after creation misses (raises `KeyError`)
on the first and, where the code retries after `clearcache`, on the second
attempt. -/

structure ScanRec where
  sid : String
  xml : Elem

structure AssessorRec where
  aid : String
  albl : String
  xml : Elem
  lagged1 : Bool
  lagged2 : Bool

structure ExperimentRec where
  eid : String
  elbl : String
  xsiType : String
  xml : Elem
  lagged1 : Bool
  lagged2 : Bool
  scans : List ScanRec
  assessors : List AssessorRec

structure SubjectRec where
  sid : String
  slbl : String
  xml : Elem
  lagged : Bool
  experiments : List ExperimentRec

/-- Destination-side identifier assignment: the ids the destination server
gives to newly created subjects, experiments and assessors (scan ids are
caller-supplied). -/
structure DestAssign where
  assignSubj : String → String
  assignExp : String → String
  assignAssess : String → String

/-- The per-pair context: current source and destination `ProjectInfo` and
the destination server's id assignment. -/
structure Ctx where
  source : ProjectInfo
  destination : ProjectInfo
  assign : DestAssign

/-! ## State-level `update_id_map`

`updateIdMapSt` is `self.mapper.update_id_map(...)` acting on the walker
state; the `overwroteDifferent` instrumentation latches when an existing
(kind, source) entry would be replaced by a different destination value. -/

/-- The instrumentation predicate: a write of `source ↦ destination` into
partition `t` overwrites an existing entry with a different value. -/
def overwFlagB (m : IdMap) (t : XnatType) (k v : String) : Bool :=
  match alLookup (idMapGet m t) k with
  | some v0 => decide (v0 ≠ v)
  | none => false

def updateIdMapSt (st : MigState) (source destination : String) (map_type : XnatType) :
    StepRes :=
  match idsToMap map_type with
  | none => .err "KeyError: ids_to_map" st
  | some t =>
    .ok { st with
      overwroteDifferent := st.overwroteDifferent ||
        overwFlagB st.idMap t source destination,
      idMap := idMapSet st.idMap t (alInsert (idMapGet st.idMap t) source destination) }

end Xmigrate

namespace Xmigrate

/-! ## Resource creation (`Migration._create_*`)

Each function mirrors one `_create_*` method.  Fetches from the source
succeed and return the record's `xml`; a `POST` create appends to the
destination state and to the event trace; `clearcache` is a no-op on the
model; uncaught Python exceptions become `StepRes.err`. -/

/-- `Migration._create_project`: transform the project record, create it on
the destination when its id is not among the destination projects, then
record `id_map[project][source.id] = destination.id`. -/
def create_project (ctx : Ctx) (projXml : Elem) (st : MigState) : StepRes :=
  match map_xml ctx.source ctx.destination st.idMap projXml .project with
  | .error er => .err er st
  | .ok _ =>
    let st :=
      if ctx.destination.id ∈ st.dest.projects then st
      else
        { st with
          dest := { st.dest with projects := st.dest.projects ++ [ctx.destination.id] },
          events := st.events ++ [.created (.projectC ctx.destination.id)] }
    updateIdMapSt st ctx.source.id ctx.destination.id .project

/-- `Migration._create_subject`: sharing bookkeeping, ownership check (a
non-owner only appends the destination project to the participant list and
returns), transform, create when the label is absent, then try to record the
identifier mapping; a listing miss (`lagged`) is caught and counted in
`subj_failed_count`. -/
def create_subject (ctx : Ctx) (s : SubjectRec) (st : MigState) : StepRes :=
  let si := (alLookup st.subjectSharing s.slbl).getD (defaultSubjSharing s.sid)
  match getAttr s.xml "project" with
  | none => .err "KeyError: project" st
  | some proj =>
    if proj ≠ ctx.source.id then
      let si2 := { si with projects := si.projects ++ [ctx.destination.id], sourceId := some s.sid }
      .ok { st with subjectSharing := alInsert st.subjectSharing s.slbl si2 }
    else
      let si2 := { si with owner := some ctx.destination.id, labelVal := some s.slbl, sourceId := some s.sid }
      let st := { st with subjectSharing := alInsert st.subjectSharing s.slbl si2 }
      match map_xml ctx.source ctx.destination st.idMap s.xml .subject with
      | .error er => .err er st
      | .ok _ =>
        if ctx.destination.id ∈ st.dest.projects then
          let st :=
            if (destSubjFind st.dest ctx.destination.id s.slbl).isNone then
              { st with
                dest := { st.dest with subjects := st.dest.subjects ++
                  [⟨ctx.destination.id, s.slbl, ctx.assign.assignSubj s.slbl⟩] },
                events := st.events ++ [.created (.subjectC ctx.destination.id s.slbl)] }
            else st
          match (if s.lagged then none else destSubjFind st.dest ctx.destination.id s.slbl) with
          | none => .ok { st with subjFailed := st.subjFailed + 1 }
          | some entry => updateIdMapSt st s.sid entry.sid .subject
        else .err "KeyError: destination project" st

/-- `Migration._create_experiment`: sharing bookkeeping (looked up by source
id, stored by label), ownership check, transform, create when the label is
absent under the destination subject, then record the identifier mapping; a
first listing miss is counted in `exp_failed_count` and retried once after
`clearcache`, and a second miss escapes as an uncaught `KeyError`. -/
def create_experiment (ctx : Ctx) (s : SubjectRec) (e : ExperimentRec) (st : MigState) :
    StepRes :=
  let si := (alLookup st.experimentSharing e.eid).getD defaultExpSharing
  match getAttr e.xml "project" with
  | none => .err "KeyError: project" st
  | some proj =>
    if proj ≠ ctx.source.id then
      let si2 := { si with projects := si.projects ++ [ctx.destination.id], sourceId := some e.eid }
      .ok { st with experimentSharing := alInsert st.experimentSharing e.elbl si2 }
    else
      let si2 := { si with owner := some ctx.destination.id, labelVal := some e.elbl, sourceId := some e.eid }
      let st := { st with experimentSharing := alInsert st.experimentSharing e.elbl si2 }
      match map_xml ctx.source ctx.destination st.idMap e.xml .experiment with
      | .error er => .err er st
      | .ok _ =>
        if ctx.destination.id ∈ st.dest.projects then
          match destSubjFind st.dest ctx.destination.id s.slbl with
          | none => .err "KeyError: subject" st
          | some _ =>
            let st :=
              if (destExpFind st.dest ctx.destination.id s.slbl e.elbl).isNone then
                { st with
                  dest := { st.dest with experiments := st.dest.experiments ++
                    [⟨ctx.destination.id, s.slbl, e.elbl, ctx.assign.assignExp e.elbl⟩] },
                  events := st.events ++
                    [.created (.experimentC ctx.destination.id s.slbl e.elbl)] }
              else st
            match (if e.lagged1 then none
                   else destExpFind st.dest ctx.destination.id s.slbl e.elbl) with
            | some entry => updateIdMapSt st e.eid entry.eid .experiment
            | none =>
              let st := { st with expFailed := st.expFailed + 1 }
              match (if e.lagged2 then none
                     else destExpFind st.dest ctx.destination.id s.slbl e.elbl) with
              | none => .err "KeyError: experiment" st
              | some entry => updateIdMapSt st e.eid entry.eid .experiment
        else .err "KeyError: destination project" st

/-- `Migration._create_scan`: skip scans of experiments this project does
not own; otherwise transform (the fatal file-path rewrite can escape here),
create when the scan id is absent under the destination experiment, then
record the identity mapping `id_map[scan][scan.id] = scan.id`. -/
def create_scan (ctx : Ctx) (s : SubjectRec) (e : ExperimentRec) (sc : ScanRec)
    (st : MigState) : StepRes :=
  match getAttr e.xml "project" with
  | none => .err "KeyError: project" st
  | some proj =>
    if proj ≠ ctx.source.id then .ok st
    else
      match map_xml ctx.source ctx.destination st.idMap sc.xml .scan with
      | .error er => .err er st
      | .ok _ =>
        if ctx.destination.id ∈ st.dest.projects then
          match destSubjFind st.dest ctx.destination.id s.slbl with
          | none => .err "KeyError: subject" st
          | some _ =>
            match destExpFind st.dest ctx.destination.id s.slbl e.elbl with
            | none => .err "KeyError: experiment" st
            | some _ =>
              let st :=
                if (destScanFind st.dest ctx.destination.id s.slbl e.elbl sc.sid).isNone then
                  { st with
                    dest := { st.dest with scans := st.dest.scans ++
                      [⟨ctx.destination.id, s.slbl, e.elbl, sc.sid⟩] },
                    events := st.events ++
                      [.created (.scanC ctx.destination.id s.slbl e.elbl sc.sid)] }
                else st
              updateIdMapSt st sc.sid sc.sid .scan
        else .err "KeyError: destination project" st

/-- `Migration._create_assessor`: like `_create_experiment`, with the
identifier mapping recorded under the `assessor` map type (which
`ids_to_map` routes to the `experiment` partition). -/
def create_assessor (ctx : Ctx) (s : SubjectRec) (e : ExperimentRec) (a : AssessorRec)
    (st : MigState) : StepRes :=
  let si := (alLookup st.assessorSharing a.aid).getD defaultExpSharing
  match getAttr a.xml "project" with
  | none => .err "KeyError: project" st
  | some proj =>
    if proj ≠ ctx.source.id then
      let si2 := { si with projects := si.projects ++ [ctx.destination.id], sourceId := some a.aid }
      .ok { st with assessorSharing := alInsert st.assessorSharing a.albl si2 }
    else
      let si2 := { si with owner := some ctx.destination.id, labelVal := some a.albl, sourceId := some a.aid }
      let st := { st with assessorSharing := alInsert st.assessorSharing a.albl si2 }
      match map_xml ctx.source ctx.destination st.idMap a.xml .assessor with
      | .error er => .err er st
      | .ok _ =>
        if ctx.destination.id ∈ st.dest.projects then
          match destSubjFind st.dest ctx.destination.id s.slbl with
          | none => .err "KeyError: subject" st
          | some _ =>
            match destExpFind st.dest ctx.destination.id s.slbl e.elbl with
            | none => .err "KeyError: experiment" st
            | some _ =>
              let st :=
                if (destAssessFind st.dest ctx.destination.id s.slbl e.elbl a.albl).isNone then
                  { st with
                    dest := { st.dest with assessors := st.dest.assessors ++
                      [⟨ctx.destination.id, s.slbl, e.elbl, a.albl,
                        ctx.assign.assignAssess a.albl⟩] },
                    events := st.events ++
                      [.created (.assessorC ctx.destination.id s.slbl e.elbl a.albl)] }
                else st
              match (if a.lagged1 then none
                     else destAssessFind st.dest ctx.destination.id s.slbl e.elbl a.albl) with
              | some entry => updateIdMapSt st a.aid entry.aid .assessor
              | none =>
                let st := { st with assessFailed := st.assessFailed + 1 }
                match (if a.lagged2 then none
                       else destAssessFind st.dest ctx.destination.id s.slbl e.elbl a.albl) with
                | none => .err "KeyError: assessor" st
                | some entry => updateIdMapSt st a.aid entry.aid .assessor
        else .err "KeyError: destination project" st

/-- The error message of the fatal datatype check in `_create_resources`
(lines 611–614). -/
def datatypeErr (datatype subjectId : String) : String :=
  "Datatype " ++ datatype ++ " not available on destination server for subject " ++
    subjectId ++ "."

/-- The body of the experiment loop of `_create_resources`: fatal
`RuntimeError` when the experiment's declared type is not advertised by the
destination, then `_create_experiment`, then the scan and assessor loops. -/
def processExperiment (ctx : Ctx) (destinationDatatypes : List String) (s : SubjectRec)
    (e : ExperimentRec) (st : MigState) : StepRes :=
  if e.xsiType ∉ destinationDatatypes then
    .err (datatypeErr e.xsiType s.sid) st
  else
    ((create_experiment ctx s e st).then
      (walkList (create_scan ctx s e) e.scans)).then
      (walkList (create_assessor ctx s e) e.assessors)

/-- The body of the subject loop of `_create_resources`. -/
def processSubject (ctx : Ctx) (destinationDatatypes : List String) (s : SubjectRec)
    (st : MigState) : StepRes :=
  (create_subject ctx s st).then
    (walkList (processExperiment ctx destinationDatatypes s) s.experiments)

/-- `Migration._create_resources` (without the external `rsync` step, an
out-of-scope file-transfer collaborator modelled as succeeding): create the
project, return early under `rsync_only`, then walk subjects, experiments,
scans and assessors in order. -/
def create_resources (ctx : Ctx) (projXml : Elem) (subjects : List SubjectRec)
    (destinationDatatypes : List String) (rsyncOnly : Bool) (st : MigState) : StepRes :=
  (create_project ctx projXml st).then fun st =>
    if rsyncOnly then .ok st
    else walkList (processSubject ctx destinationDatatypes) subjects st

end Xmigrate

namespace Xmigrate

/-! ## Sharing resolution and the coordinator (`_apply_sharing`, `run`) -/

/-- Modelled from the spec: `XMLMapper.get_destination_id(source_id, kind)`
recovers the destination identifier from `IdentifierMap[kind][source_id]`,
a missing key raising `KeyError` (represented by `none`).  The method is
called from `main.py` (`_apply_sharing`) but its definition is not present
under `src/`; the spec describes the lookup as "the owner-scoped identifier
recovered from IdentifierMap by source identifier". -/
def get_destination_id (m : IdMap) (sourceId : String) (t : XnatType) : Option String :=
  alLookup (idMapGet m t) sourceId

/-- One entry of a sharing table processed by `_apply_sharing`: recover the
destination id by searching every mapper's identifier map in order; when none
has it, log a warning and continue; otherwise issue one grant request per
participant project (each modelled as succeeding; a failed `PUT` is caught
and logged).  A missing `source_id` key would escape as `KeyError`. -/
def shareKindStep (kind : XnatType) (doneMaps : List IdMap) (entry : String × SharingInfo)
    (st : MigState) : StepRes :=
  match entry.2.sourceId with
  | none => .err "KeyError: source_id" st
  | some sid =>
    match doneMaps.findSome? (fun m => get_destination_id m sid kind) with
    | none => .ok st
    | some destId =>
      .ok { st with events := st.events ++
        entry.2.projects.map (fun p => .grantIssued kind entry.2.owner destId p entry.1) }

/-- `Migration._apply_sharing`: walk the subject, experiment and assessor
sharing tables in order, issuing grants.  The leading `sharingInvoked` event
marks the (single) invocation of the resolver. -/
def apply_sharing (st : MigState) : StepRes :=
  let st := { st with events := st.events ++ [.sharingInvoked] }
  ((walkList (shareKindStep .subject st.doneMaps) st.subjectSharing st).then
    (walkList (shareKindStep .experiment st.doneMaps) st.experimentSharing)).then
    (walkList (shareKindStep .assessor st.doneMaps) st.assessorSharing)

/-- One source/destination project pair with the records its walk consumes. -/
structure PairInput where
  source : ProjectInfo
  destination : ProjectInfo
  projXml : Elem
  subjects : List SubjectRec

/-- One iteration of the pair loop in `Migration.run`: switch the project
context to this pair's mapper (whose `id_map` starts empty), walk the tree,
and archive the pair's identifier map for `_apply_sharing` (the metadata and
config exports and the catalogue refresh are external I/O with no effect on
the modelled state). -/
def runPairStep (assign : DestAssign) (destinationDatatypes : List String)
    (rsyncOnly : Bool) (p : PairInput) (st : MigState) : StepRes :=
  let ctx : Ctx := { source := p.source, destination := p.destination, assign := assign }
  let st := { st with idMap := [] }
  (create_resources ctx p.projXml p.subjects destinationDatatypes rsyncOnly st).then
    fun st2 => .ok { st2 with doneMaps := st2.doneMaps ++ [st2.idMap] }

/-- `Migration.run`: the initial datatype compatibility check (fatal when the
source has datatypes missing on the destination), the sequential loop over
all project pairs, and then exactly one `_apply_sharing` invocation. -/
def runMigration (assign : DestAssign) (pairs : List PairInput)
    (destinationDatatypes : List String) (rsyncOnly : Bool) (datatypesMatching : Bool)
    (st : MigState) : StepRes :=
  if datatypesMatching then
    (walkList (runPairStep assign destinationDatatypes rsyncOnly) pairs st).then
      apply_sharing
  else
    .err "Source has datatypes not enabled on destination" st

end Xmigrate

namespace Xmigrate

/-! ## Event counting helpers and concrete fixtures -/

def isSubjCreate : Event → Bool
  | .created (.subjectC _ _) => true
  | _ => false

def isExpCreate : Event → Bool
  | .created (.experimentC _ _ _) => true
  | _ => false

def countSubjCreates (evs : List Event) : Nat := evs.countP isSubjCreate

def countExpCreates (evs : List Event) : Nat := evs.countP isExpCreate

def assignW : DestAssign :=
  { assignSubj := fun l => l ++ "-d", assignExp := fun l => l ++ "-d",
    assignAssess := fun l => l ++ "-d" }

def srcInfoW : ProjectInfo :=
  { id := "A", secondary_id := "As", project_name := "An", archive_path := "/arch/src" }

def dstInfoW : ProjectInfo :=
  { id := "B", secondary_id := "Bs", project_name := "Bn", archive_path := "/arch/dst" }

def ctxW : Ctx := { source := srcInfoW, destination := dstInfoW, assign := assignW }

def destW : DestState := { projects := [], subjects := [], experiments := [], scans := [], assessors := [] }

def projXmlW : Elem := Elem.mk "proj" [("ID", "A")] none []

def ownXml (idv : String) : Elem := Elem.mk "rec" [("project", "A"), ("ID", idv)] none []

def sharedXmlW : Elem := Elem.mk "rec" [("project", "OTHER")] none []

def subjSharedW : SubjectRec :=
  { sid := "S9", slbl := "S9L", xml := sharedXmlW, lagged := false, experiments := [] }

def expSharedW : ExperimentRec :=
  { eid := "E9", elbl := "E9L", xsiType := "t", xml := sharedXmlW, lagged1 := false,
    lagged2 := false, scans := [], assessors := [] }

def assSharedW : AssessorRec :=
  { aid := "A9", albl := "A9L", xml := sharedXmlW, lagged1 := false, lagged2 := false }

def expOkW : ExperimentRec :=
  { eid := "E1", elbl := "E1L", xsiType := "xnat:mrSessionData", xml := ownXml "E1",
    lagged1 := false, lagged2 := false, scans := [], assessors := [] }

def expBadW : ExperimentRec :=
  { eid := "E2", elbl := "E2L", xsiType := "xnat:petSessionData", xml := ownXml "E2",
    lagged1 := false, lagged2 := false, scans := [], assessors := [] }

def subjC1 : SubjectRec :=
  { sid := "S1", slbl := "S1L", xml := ownXml "S1", lagged := false,
    experiments := [expOkW, expBadW] }

def dtypesW : List String := ["xnat:mrSessionData"]

/-! ## C4: non-owned resources are only recorded for sharing -/

/-- The sharing-table update performed by the non-owner branches: fetch the
record under `lookupKey` (falling back to the given default), append the
destination project to its participant list, restamp the source id, and
store the record under `storeKey` (`_create_subject` uses the label for
both; `_create_experiment` and `_create_assessor` look up by source id but
store by label). -/
def sharedAppend (tbl : List (String × SharingInfo)) (lookupKey storeKey : String)
    (deflt : SharingInfo) (destId srcId : String) : List (String × SharingInfo) :=
  let si := (alLookup tbl lookupKey).getD deflt
  alInsert tbl storeKey { si with projects := si.projects ++ [destId], sourceId := some srcId }

/-- The input state with only the subject sharing table replaced. -/
def withSubjSharing (st : MigState) (tbl : List (String × SharingInfo)) : MigState :=
  { st with subjectSharing := tbl }

/-- The input state with only the experiment sharing table replaced. -/
def withExpSharing (st : MigState) (tbl : List (String × SharingInfo)) : MigState :=
  { st with experimentSharing := tbl }

/-- The input state with only the assessor sharing table replaced. -/
def withAssessSharing (st : MigState) (tbl : List (String × SharingInfo)) : MigState :=
  { st with assessorSharing := tbl }

/-- C4: when a subject's, experiment's or assessor's record declares an
owning project different from the source project being processed, the
create function returns a state identical to the input except for the
corresponding sharing table (to which the destination project id is appended
as a participant): in particular no create call is issued (the event trace
is unchanged) and the identifier map is untouched. -/
theorem c4_theorem (ctx : Ctx) (s : SubjectRec) (e : ExperimentRec) (a : AssessorRec)
    (st : MigState) (p q r : String)
    (hs : getAttr s.xml "project" = some p) (hps : p ≠ ctx.source.id)
    (he : getAttr e.xml "project" = some q) (hpe : q ≠ ctx.source.id)
    (ha : getAttr a.xml "project" = some r) (hpa : r ≠ ctx.source.id) :
    create_subject ctx s st = .ok (withSubjSharing st
      (sharedAppend st.subjectSharing s.slbl s.slbl (defaultSubjSharing s.sid)
        ctx.destination.id s.sid)) ∧
    create_experiment ctx s e st = .ok (withExpSharing st
      (sharedAppend st.experimentSharing e.eid e.elbl defaultExpSharing
        ctx.destination.id e.eid)) ∧
    create_assessor ctx s e a st = .ok (withAssessSharing st
      (sharedAppend st.assessorSharing a.aid a.albl defaultExpSharing
        ctx.destination.id a.aid)) := by
  refine ⟨?_, ?_, ?_⟩
  · unfold create_subject
    rw [hs]
    simp [hps, sharedAppend, withSubjSharing]
  · unfold create_experiment
    rw [he]
    simp [hpe, sharedAppend, withExpSharing]
  · unfold create_assessor
    rw [ha]
    simp [hpa, sharedAppend, withAssessSharing]

/-- C4 witness: the theorem evaluated on records owned by project `OTHER`
while processing source project `A`. -/
theorem c4_witness :
    create_subject ctxW subjSharedW (initMigState destW)
      = .ok (withSubjSharing (initMigState destW)
          (sharedAppend (initMigState destW).subjectSharing subjSharedW.slbl subjSharedW.slbl
            (defaultSubjSharing subjSharedW.sid) ctxW.destination.id subjSharedW.sid)) ∧
    create_experiment ctxW subjSharedW expSharedW (initMigState destW)
      = .ok (withExpSharing (initMigState destW)
          (sharedAppend (initMigState destW).experimentSharing expSharedW.eid expSharedW.elbl
            defaultExpSharing ctxW.destination.id expSharedW.eid)) := by
  have h := c4_theorem ctxW subjSharedW expSharedW assSharedW (initMigState destW)
    "OTHER" "OTHER" "OTHER" rfl (by decide) rfl (by decide) rfl (by decide)
  exact ⟨h.1, h.2.1⟩

/-! ## C10: assessor identifier-map writes land in the experiment partition -/

theorem idMapGet_set_ne (m : IdMap) (t t' : XnatType) (part : List (String × String))
    (h : t ≠ t') : idMapGet (idMapSet m t part) t' = idMapGet m t' := by
  unfold idMapGet idMapSet
  rw [alLookup_insert_ne _ _ _ _ h]

/-- A walker step that leaves the assessor partition of the identifier map
unchanged (on success and on error alike). -/
def PreservesAssessorPart (f : MigState → StepRes) : Prop :=
  ∀ st, idMapGet ((f st).state).idMap .assessor = idMapGet st.idMap .assessor

theorem updateIdMapSt_assessor (st : MigState) (src dst : String) (mt : XnatType) :
    idMapGet ((updateIdMapSt st src dst mt).state).idMap .assessor
      = idMapGet st.idMap .assessor := by
  cases mt <;>
    simp [updateIdMapSt, StepRes.state, idsToMap, idMapGet_set_ne]

theorem preservesAssessorPart_then {f g : MigState → StepRes}
    (hf : PreservesAssessorPart f) (hg : PreservesAssessorPart g) :
    PreservesAssessorPart (fun st => (f st).then g) := by
  intro st
  show idMapGet (((f st).then g).state).idMap .assessor = idMapGet st.idMap .assessor
  have h1 := hf st
  cases hfst : f st with
  | ok s =>
    rw [hfst] at h1
    have h2 := hg s
    rw [then_ok]
    exact h2.trans h1
  | err ε s =>
    rw [hfst] at h1
    rw [then_err]
    exact h1

theorem preservesAssessorPart_walkList {α : Type} {f : α → MigState → StepRes}
    (hf : ∀ a, PreservesAssessorPart (f a)) (l : List α) :
    PreservesAssessorPart (walkList f l) := by
  induction l with
  | nil => intro st; rfl
  | cons a t ih => exact preservesAssessorPart_then (hf a) ih

theorem create_subject_assessorPart (ctx : Ctx) (s : SubjectRec) :
    PreservesAssessorPart (create_subject ctx s) := by
  intro st
  unfold create_subject
  dsimp only
  repeat' split
  all_goals first
    | rfl
    | (rw [updateIdMapSt_assessor])

theorem create_experiment_assessorPart (ctx : Ctx) (s : SubjectRec) (e : ExperimentRec) :
    PreservesAssessorPart (create_experiment ctx s e) := by
  intro st
  unfold create_experiment
  dsimp only
  repeat' split
  all_goals first
    | rfl
    | (rw [updateIdMapSt_assessor])

theorem create_scan_assessorPart (ctx : Ctx) (s : SubjectRec) (e : ExperimentRec)
    (sc : ScanRec) : PreservesAssessorPart (create_scan ctx s e sc) := by
  intro st
  unfold create_scan
  dsimp only
  repeat' split
  all_goals first
    | rfl
    | (rw [updateIdMapSt_assessor])

theorem create_assessor_assessorPart (ctx : Ctx) (s : SubjectRec) (e : ExperimentRec)
    (a : AssessorRec) : PreservesAssessorPart (create_assessor ctx s e a) := by
  intro st
  unfold create_assessor
  dsimp only
  repeat' split
  all_goals first
    | rfl
    | (rw [updateIdMapSt_assessor])

theorem create_project_assessorPart (ctx : Ctx) (projXml : Elem) :
    PreservesAssessorPart (create_project ctx projXml) := by
  intro st
  unfold create_project
  dsimp only
  repeat' split
  all_goals first
    | rfl
    | (rw [updateIdMapSt_assessor])

theorem processExperiment_assessorPart (ctx : Ctx) (dtypes : List String) (s : SubjectRec)
    (e : ExperimentRec) : PreservesAssessorPart (processExperiment ctx dtypes s e) := by
  intro st
  unfold processExperiment
  split
  · rfl
  · exact preservesAssessorPart_then
      (preservesAssessorPart_then (create_experiment_assessorPart ctx s e)
        (preservesAssessorPart_walkList (fun sc => create_scan_assessorPart ctx s e sc) e.scans))
      (preservesAssessorPart_walkList (fun a => create_assessor_assessorPart ctx s e a)
        e.assessors) st

theorem processSubject_assessorPart (ctx : Ctx) (dtypes : List String) (s : SubjectRec) :
    PreservesAssessorPart (processSubject ctx dtypes s) := by
  unfold processSubject
  exact preservesAssessorPart_then (create_subject_assessorPart ctx s)
    (preservesAssessorPart_walkList (fun e => processExperiment_assessorPart ctx dtypes s e)
      s.experiments)

/-- C10: (1) `ids_to_map` routes the assessor kind to the experiment kind;
(2) `update_id_map` with the assessor map type writes the (source,
destination) pair into the experiment partition of the identifier map — so
assessor and experiment source ids share one lookup namespace; and (3) an
entire `_create_resources` walk never changes the assessor partition, which
therefore stays empty when it starts empty. -/
theorem c10_theorem :
    idsToMap .assessor = some .experiment ∧
    (∀ (m : IdMap) (src dst : String),
      update_id_map m src dst .assessor
        = some (idMapSet m .experiment (alInsert (idMapGet m .experiment) src dst))) ∧
    (∀ (ctx : Ctx) (projXml : Elem) (subjects : List SubjectRec)
        (dtypes : List String) (ro : Bool) (st : MigState),
      idMapGet ((create_resources ctx projXml subjects dtypes ro st).state).idMap .assessor
        = idMapGet st.idMap .assessor) := by
  refine ⟨rfl, fun m src dst => rfl, fun ctx projXml subjects dtypes ro st => ?_⟩
  have h : PreservesAssessorPart (create_resources ctx projXml subjects dtypes ro) := by
    unfold create_resources
    refine preservesAssessorPart_then (create_project_assessorPart ctx projXml) ?_
    intro st'
    split
    · rfl
    · exact preservesAssessorPart_walkList
        (fun s => processSubject_assessorPart ctx dtypes s) subjects st'
  exact h st

/-! ## C1: unsupported experiment datatype is fatal, not a skip-warning -/

/-- C1 counterexample: the spec scenario — one subject with two experiments,
one of a type the destination does not advertise — expects exactly one
created experiment, one skip-warning and zero fatal errors.  Running the
walk on that scenario produces a fatal error (the walk does not return
`ok`), with one experiment created only because it happened to precede the
unsupported one. -/
theorem c1_counterexample :
    (create_resources ctxW projXmlW [subjC1] dtypesW false (initMigState destW)).isOk
        = false ∧
    countExpCreates
        ((create_resources ctxW projXmlW [subjC1] dtypesW false
          (initMigState destW)).state.events) = 1 := by
  decide

/-- C1 (amended): when the walker reaches an experiment whose declared type
is not advertised by the destination server, it raises a fatal
`RuntimeError` naming the datatype and the subject, aborting the walk with
the state reached so far: experiments after the unsupported one are not
processed and not created. -/
theorem c1_theorem (ctx : Ctx) (dtypes : List String) (s : SubjectRec) (e : ExperimentRec)
    (pre post : List ExperimentRec) (st st1 : MigState)
    (hbad : e.xsiType ∉ dtypes)
    (hpre : walkList (processExperiment ctx dtypes s) pre st = .ok st1) :
    walkList (processExperiment ctx dtypes s) (pre ++ e :: post) st
      = .err (datatypeErr e.xsiType s.sid) st1 := by
  rw [walkList_append, hpre]
  simp [processExperiment, hbad]

/-- C1 witness: the amended theorem evaluated on the scenario subject, with
the unsupported experiment first: the walk stops at once with the fatal
datatype error. -/
theorem c1_witness :
    walkList (processExperiment ctxW dtypesW subjC1) ([] ++ expBadW :: [expOkW])
        (initMigState destW)
      = .err (datatypeErr expBadW.xsiType subjC1.sid) (initMigState destW) :=
  c1_theorem ctxW dtypesW subjC1 expBadW [] [expOkW] (initMigState destW)
    (initMigState destW) (by decide) rfl

end Xmigrate

namespace Xmigrate

/-! ## C9: sharing resolution is a single, strictly deferred phase -/

def isCreatedEv : Event → Bool
  | .created _ => true
  | _ => false

def isGrantEv : Event → Bool
  | .grantIssued _ _ _ _ _ => true
  | _ => false

/-- A walker step only appends events satisfying `P` to the trace (on
success and on error alike). -/
def EvDelta (P : Event → Bool) (f : MigState → StepRes) : Prop :=
  ∀ st, ∃ new, ((f st).state).events = st.events ++ new ∧ new.all P = true

theorem evDelta_self {P : Event → Bool} (st : MigState) (r : StepRes)
    (h : (r.state).events = st.events) :
    ∃ new, (r.state).events = st.events ++ new ∧ new.all P = true :=
  ⟨[], by simp [h], rfl⟩

theorem evDelta_one {P : Event → Bool} (st : MigState) (r : StepRes) (ev : Event)
    (h : (r.state).events = st.events ++ [ev]) (hP : P ev = true) :
    ∃ new, (r.state).events = st.events ++ new ∧ new.all P = true :=
  ⟨[ev], h, by simp [hP]⟩

theorem evDelta_then {P : Event → Bool} {f g : MigState → StepRes}
    (hf : EvDelta P f) (hg : EvDelta P g) :
    EvDelta P (fun st => (f st).then g) := by
  intro st
  show ∃ new, (((f st).then g).state).events = st.events ++ new ∧ new.all P = true
  obtain ⟨n1, hn1, ha1⟩ := hf st
  cases hfst : f st with
  | ok s =>
    rw [hfst] at hn1
    obtain ⟨n2, hn2, ha2⟩ := hg s
    refine ⟨n1 ++ n2, ?_, by simp [List.all_append, ha1, ha2]⟩
    rw [then_ok, hn2, show s.events = st.events ++ n1 from hn1, List.append_assoc]
  | err ε s =>
    rw [hfst] at hn1
    refine ⟨n1, ?_, ha1⟩
    rw [then_err]
    exact hn1

theorem evDelta_walkList {P : Event → Bool} {α : Type} {f : α → MigState → StepRes}
    (hf : ∀ a, EvDelta P (f a)) (l : List α) : EvDelta P (walkList f l) := by
  induction l with
  | nil => intro st; exact evDelta_self st _ rfl
  | cons a t ih => exact evDelta_then (hf a) ih

theorem updateIdMapSt_events (st : MigState) (src dst : String) (mt : XnatType) :
    ((updateIdMapSt st src dst mt).state).events = st.events := by
  cases mt <;> rfl

theorem create_subject_evDelta (ctx : Ctx) (s : SubjectRec) :
    EvDelta isCreatedEv (create_subject ctx s) := by
  intro st
  unfold create_subject
  dsimp only
  repeat' split
  all_goals first
    | exact evDelta_self st _ rfl
    | exact evDelta_self st _ (updateIdMapSt_events _ _ _ _)
    | exact evDelta_one st _ _ rfl rfl
    | exact evDelta_one st _ _ (updateIdMapSt_events _ _ _ _) rfl

theorem create_experiment_evDelta (ctx : Ctx) (s : SubjectRec) (e : ExperimentRec) :
    EvDelta isCreatedEv (create_experiment ctx s e) := by
  intro st
  unfold create_experiment
  dsimp only
  repeat' split
  all_goals first
    | exact evDelta_self st _ rfl
    | exact evDelta_self st _ (updateIdMapSt_events _ _ _ _)
    | exact evDelta_one st _ _ rfl rfl
    | exact evDelta_one st _ _ (updateIdMapSt_events _ _ _ _) rfl

theorem create_scan_evDelta (ctx : Ctx) (s : SubjectRec) (e : ExperimentRec) (sc : ScanRec) :
    EvDelta isCreatedEv (create_scan ctx s e sc) := by
  intro st
  unfold create_scan
  dsimp only
  repeat' split
  all_goals first
    | exact evDelta_self st _ rfl
    | exact evDelta_self st _ (updateIdMapSt_events _ _ _ _)
    | exact evDelta_one st _ _ rfl rfl
    | exact evDelta_one st _ _ (updateIdMapSt_events _ _ _ _) rfl

theorem create_assessor_evDelta (ctx : Ctx) (s : SubjectRec) (e : ExperimentRec)
    (a : AssessorRec) : EvDelta isCreatedEv (create_assessor ctx s e a) := by
  intro st
  unfold create_assessor
  dsimp only
  repeat' split
  all_goals first
    | exact evDelta_self st _ rfl
    | exact evDelta_self st _ (updateIdMapSt_events _ _ _ _)
    | exact evDelta_one st _ _ rfl rfl
    | exact evDelta_one st _ _ (updateIdMapSt_events _ _ _ _) rfl

theorem create_project_evDelta (ctx : Ctx) (projXml : Elem) :
    EvDelta isCreatedEv (create_project ctx projXml) := by
  intro st
  unfold create_project
  dsimp only
  repeat' split
  all_goals first
    | exact evDelta_self st _ rfl
    | exact evDelta_self st _ (updateIdMapSt_events _ _ _ _)
    | exact evDelta_one st _ _ rfl rfl
    | exact evDelta_one st _ _ (updateIdMapSt_events _ _ _ _) rfl

theorem processExperiment_evDelta (ctx : Ctx) (dtypes : List String) (s : SubjectRec)
    (e : ExperimentRec) : EvDelta isCreatedEv (processExperiment ctx dtypes s e) := by
  intro st
  unfold processExperiment
  split
  · exact evDelta_self st _ rfl
  · exact evDelta_then
      (evDelta_then (create_experiment_evDelta ctx s e)
        (evDelta_walkList (fun sc => create_scan_evDelta ctx s e sc) e.scans))
      (evDelta_walkList (fun a => create_assessor_evDelta ctx s e a) e.assessors) st

theorem processSubject_evDelta (ctx : Ctx) (dtypes : List String) (s : SubjectRec) :
    EvDelta isCreatedEv (processSubject ctx dtypes s) := by
  unfold processSubject
  exact evDelta_then (create_subject_evDelta ctx s)
    (evDelta_walkList (fun e => processExperiment_evDelta ctx dtypes s e) s.experiments)

theorem create_resources_evDelta (ctx : Ctx) (projXml : Elem) (subjects : List SubjectRec)
    (dtypes : List String) (ro : Bool) :
    EvDelta isCreatedEv (create_resources ctx projXml subjects dtypes ro) := by
  unfold create_resources
  refine evDelta_then (create_project_evDelta ctx projXml) ?_
  intro st
  split
  · exact evDelta_self st _ rfl
  · exact evDelta_walkList (fun s => processSubject_evDelta ctx dtypes s) subjects st

theorem runPairStep_evDelta (assign : DestAssign) (dtypes : List String) (ro : Bool)
    (p : PairInput) : EvDelta isCreatedEv (runPairStep assign dtypes ro p) := by
  intro st
  unfold runPairStep
  dsimp only
  obtain ⟨n, hn, ha⟩ := create_resources_evDelta ⟨p.source, p.destination, assign⟩
    p.projXml p.subjects dtypes ro { st with idMap := [] }
  cases hc : create_resources ⟨p.source, p.destination, assign⟩ p.projXml p.subjects
      dtypes ro { st with idMap := [] } with
  | ok s =>
    rw [hc] at hn
    exact ⟨n, by rw [then_ok]; exact hn, ha⟩
  | err ε s =>
    rw [hc] at hn
    exact ⟨n, by rw [then_err]; exact hn, ha⟩

theorem shareKindStep_evDelta (kind : XnatType) (doneMaps : List IdMap)
    (entry : String × SharingInfo) : EvDelta isGrantEv (shareKindStep kind doneMaps entry) := by
  intro st
  unfold shareKindStep
  repeat' split
  · exact evDelta_self st _ rfl
  · exact evDelta_self st _ rfl
  · refine ⟨entry.2.projects.map
      (fun p => .grantIssued kind entry.2.owner _ p entry.1), rfl, ?_⟩
    simp [List.all_eq_true, isGrantEv]

/-- `_apply_sharing` appends exactly one `sharingInvoked` marker followed by
grant events only. -/
theorem apply_sharing_events (st : MigState) :
    ∃ new, ((apply_sharing st).state).events = st.events ++ Event.sharingInvoked :: new ∧
      new.all isGrantEv = true := by
  unfold apply_sharing
  dsimp only
  obtain ⟨n, hn, ha⟩ :=
    evDelta_then
      (evDelta_then
        (evDelta_walkList (fun en => shareKindStep_evDelta .subject st.doneMaps en)
          st.subjectSharing)
        (fun st2 => evDelta_walkList
          (fun en => shareKindStep_evDelta .experiment st.doneMaps en)
          st.experimentSharing st2))
      (fun st2 => evDelta_walkList (fun en => shareKindStep_evDelta .assessor st.doneMaps en)
        st.assessorSharing st2)
      { st with events := st.events ++ [Event.sharingInvoked] }
  exact ⟨n, by rw [hn]; simp, ha⟩

/-- C9: every event trace of a coordinator run splits into walk events (all
create calls) followed by sharing events (the `sharingInvoked` marker and
grant requests): no sharing-grant request is issued before the last pair's
walk finishes, and the marker occurs exactly once when all pair walks
complete and never otherwise. -/
theorem c9_theorem (assign : DestAssign) (pairs : List PairInput) (dtypes : List String)
    (ro dm : Bool) (d : DestState) :
    ∃ w rest,
      ((runMigration assign pairs dtypes ro dm (initMigState d)).state).events
        = w ++ rest ∧
      w.all isCreatedEv = true ∧
      rest.all (fun ev => !(isCreatedEv ev)) = true ∧
      rest.countP (fun ev => decide (ev = Event.sharingInvoked))
        = (if ((walkList (runPairStep assign dtypes ro) pairs (initMigState d)).isOk && dm)
            then 1 else 0) := by
  unfold runMigration
  cases dm with
  | false =>
    refine ⟨[], [], rfl, rfl, rfl, ?_⟩
    simp
  | true =>
    simp only [if_true, Bool.and_true]
    obtain ⟨w0, hw0, haw0⟩ :=
      evDelta_walkList (fun p => runPairStep_evDelta assign dtypes ro p) pairs
        (initMigState d)
    cases hwk : walkList (runPairStep assign dtypes ro) pairs (initMigState d) with
    | ok s =>
      rw [hwk] at hw0
      have hs : s.events = w0 := by simpa [initMigState, StepRes.state] using hw0
      obtain ⟨g, hg, hag⟩ := apply_sharing_events s
      refine ⟨w0, Event.sharingInvoked :: g, ?_, haw0, ?_, ?_⟩
      · rw [then_ok, hg, hs]
      · rw [List.all_cons, Bool.and_eq_true]
        refine ⟨rfl, ?_⟩
        rw [List.all_eq_true] at hag ⊢
        intro x hx
        have hgx := hag x hx
        cases x <;> simp [isGrantEv, isCreatedEv] at hgx ⊢
      · have hz : g.countP (fun ev => decide (ev = Event.sharingInvoked)) = 0 := by
          rw [List.countP_eq_zero]
          intro a haa
          have hga := (List.all_eq_true.mp hag) a haa
          cases a <;> simp [isGrantEv] at hga ⊢
        simp [StepRes.isOk, List.countP_cons, hz]
    | err ε s =>
      rw [hwk] at hw0
      have hs : s.events = w0 := by simpa [initMigState, StepRes.state] using hw0
      refine ⟨w0, [], ?_, haw0, rfl, ?_⟩
      · rw [then_err]
        simp [StepRes.state, hs]
      · simp [StepRes.isOk]

end Xmigrate

namespace Xmigrate

/-! ## Success characterization of `map_xml`

`map_xml` fails exactly when an identifier-reference child has no entry in
the identifier map or a URI child lacks the source root.  `mapXmlOkB`
computes that condition directly on the `preSteps` output; the lemmas below
prove it equivalent to `map_xml` returning `ok`. -/

def isOkE {α : Type} : Except String α → Bool
  | .ok _ => true
  | .error _ => false

theorem isOkE_iff_exists {α : Type} (x : Except String α) :
    isOkE x = true ↔ ∃ a, x = .ok a := by
  cases x <;> simp [isOkE]

def textOkB (part : List (String × String)) : Option String → Bool
  | none => false
  | some x => (alLookup part x).isSome

def uriOkB (sp : String) (c : Elem) : Bool :=
  match getAttr c "URI" with
  | none => true
  | some u => strContains u sp

def remapAllOkB (m : IdMap) (ts : List (String × XnatType)) (children : List Elem) : Bool :=
  ts.all fun p =>
    match idsToMap p.2 with
    | none => false
    | some mid => children.all fun c => decide (c.tag ≠ p.1) || textOkB (idMapGet m mid) c.text

def rewriteTaggedOkB (sp tn : String) (l : List Elem) : Bool :=
  l.all fun c => decide (c.tag ≠ tn) || uriOkB sp c

def rewriteNestedOkB (sp ot it : String) (l : List Elem) : Bool :=
  l.all fun c => decide (c.tag ≠ ot) || rewriteTaggedOkB sp it c.children

def mapXmlOkB (source destination : ProjectInfo) (m : IdMap) (element : Elem)
    (ty : XnatType) : Bool :=
  let e := preSteps destination element ty
  let sp := source.archive_path ++ "/" ++ source.id
  remapAllOkB m tags_to_remap e.children &&
  (rewriteTaggedOkB sp (nsTag xnatNS "file") e.children &&
   (rewriteNestedOkB sp (nsTag xnatNS "out") (nsTag xnatNS "file") e.children &&
    rewriteNestedOkB sp (nsTag xnatNS "resources") (nsTag xnatNS "resource") e.children))

/-- Equality of tag, attributes and children (the parts of an element that
the success of later `map_xml` stages can depend on). -/
def ElemSim (c d : Elem) : Prop :=
  d.tag = c.tag ∧ d.attrib = c.attrib ∧ d.children = c.children

theorem elemSim_refl (c : Elem) : ElemSim c c := ⟨rfl, rfl, rfl⟩

theorem forall₂_elemSim_refl (l : List Elem) : List.Forall₂ ElemSim l l := by
  induction l with
  | nil => exact List.Forall₂.nil
  | cons c t ih => exact List.Forall₂.cons (elemSim_refl c) ih

theorem forall₂_elemSim_trans {l1 l2 l3 : List Elem}
    (h12 : List.Forall₂ ElemSim l1 l2) (h23 : List.Forall₂ ElemSim l2 l3) :
    List.Forall₂ ElemSim l1 l3 := by
  induction h12 generalizing l3 with
  | nil =>
    cases h23
    exact List.Forall₂.nil
  | cons hcd ht ih =>
    cases h23 with
    | cons hde ht' =>
      exact List.Forall₂.cons
        ⟨hde.1.trans hcd.1, hde.2.1.trans hcd.2.1, hde.2.2.trans hcd.2.2⟩ (ih ht')

theorem remapChildText_isOk (part : List (String × String)) (t : Option String) :
    isOkE (remapChildText part t) = textOkB part t := by
  cases t with
  | none => rfl
  | some x =>
    simp only [remapChildText, textOkB]
    cases h : alLookup part x <;> simp [h, isOkE]

theorem remapTexts_isOk (part : List (String × String)) (tn : String) (l : List Elem) :
    isOkE (remapTexts part tn l)
      = l.all fun c => decide (c.tag ≠ tn) || textOkB part c.text := by
  induction l with
  | nil => rfl
  | cons c t ih =>
    unfold remapTexts
    rw [List.all_cons]
    by_cases hc : c.tag = tn
    · have hd : (decide (c.tag ≠ tn)) = false := by simp [hc]
      rw [if_pos hc]
      cases hr : remapChildText part c.text with
      | error er =>
        have h1 : textOkB part c.text = false := by
          rw [← remapChildText_isOk part c.text, hr]
          rfl
        rw [hd, Bool.false_or, h1, Bool.false_and]
        rfl
      | ok t' =>
        have h1 : textOkB part c.text = true := by
          rw [← remapChildText_isOk part c.text, hr]
          rfl
        rw [hd, Bool.false_or, h1, Bool.true_and, ← ih]
        cases ht : remapTexts part tn t with
        | error er => rfl
        | ok cs => rfl
    · have hd : (decide (c.tag ≠ tn)) = true := by simp [hc]
      rw [if_neg hc, hd, Bool.true_or, Bool.true_and, ← ih]
      cases ht : remapTexts part tn t with
      | error er => rfl
      | ok cs => rfl

theorem remapTexts_struct (part : List (String × String)) (tn : String)
    (l l' : List Elem) (h : remapTexts part tn l = .ok l') :
    List.Forall₂ (fun c d => ElemSim c d ∧ (c.tag ≠ tn → d = c)) l l' := by
  induction l generalizing l' with
  | nil =>
    unfold remapTexts at h
    cases h
    exact List.Forall₂.nil
  | cons c t ih =>
    unfold remapTexts at h
    by_cases hc : c.tag = tn
    · rw [if_pos hc] at h
      cases hr : remapChildText part c.text with
      | error er => rw [hr] at h; cases h
      | ok t' =>
        rw [hr] at h
        cases ht : remapTexts part tn t with
        | error er => rw [ht] at h; cases h
        | ok cs =>
          rw [ht] at h
          cases h
          refine List.Forall₂.cons ⟨⟨rfl, rfl, rfl⟩, fun hne => absurd hc hne⟩ (ih cs ht)
    · rw [if_neg hc] at h
      cases ht : remapTexts part tn t with
      | error er => rw [ht] at h; cases h
      | ok cs =>
        rw [ht] at h
        cases h
        exact List.Forall₂.cons ⟨elemSim_refl c, fun _ => rfl⟩ (ih cs ht)

end Xmigrate

namespace Xmigrate

@[simp]
theorem tag_setChildren (e : Elem) (cs : List Elem) : (setChildren e cs).tag = e.tag := by
  cases e
  rfl

@[simp]
theorem attrib_setChildren (e : Elem) (cs : List Elem) :
    (setChildren e cs).attrib = e.attrib := by
  cases e
  rfl

@[simp]
theorem children_setChildren (e : Elem) (cs : List Elem) :
    (setChildren e cs).children = cs := by
  cases e
  rfl

@[simp]
theorem tag_setText (e : Elem) (t : Option String) : (setText e t).tag = e.tag := by
  cases e
  rfl

@[simp]
theorem attrib_setText (e : Elem) (t : Option String) : (setText e t).attrib = e.attrib := by
  cases e
  rfl

@[simp]
theorem children_setText (e : Elem) (t : Option String) :
    (setText e t).children = e.children := by
  cases e
  rfl

@[simp]
theorem text_setText (e : Elem) (t : Option String) : (setText e t).text = t := by
  cases e
  rfl

theorem alLookup_isSome_of_mem {α β : Type} [DecidableEq α] {l : List (α × β)} {k : α}
    {v : β} (h : (k, v) ∈ l) : (alLookup l k).isSome = true := by
  induction l with
  | nil => cases h
  | cons hd t ih =>
    obtain ⟨k0, v0⟩ := hd
    rcases List.mem_cons.mp h with h1 | h2
    · cases h1
      simp [alLookup]
    · by_cases hk : k0 = k
      · simp [alLookup, hk]
      · simp [alLookup, hk, ih h2]

theorem textRemap_all_congr (part : List (String × String)) (tn tn' : String)
    (hne : tn' ≠ tn) {l l' : List Elem}
    (hF : List.Forall₂ (fun c d => ElemSim c d ∧ (c.tag ≠ tn → d = c)) l l') :
    (l'.all fun c => decide (c.tag ≠ tn') || textOkB part c.text)
      = l.all fun c => decide (c.tag ≠ tn') || textOkB part c.text := by
  induction hF with
  | nil => rfl
  | @cons c d lt lt' hcd htl ih =>
    rw [List.all_cons, List.all_cons, ih]
    obtain ⟨⟨htag, _, _⟩, heqc⟩ := hcd
    by_cases hct : c.tag = tn
    · rw [htag, hct, decide_eq_true (Ne.symm hne), Bool.true_or, Bool.true_or]
    · rw [heqc hct]

theorem remapAllOkB_congr (m : IdMap) (rest : List (String × XnatType)) (tn : String)
    {l l' : List Elem}
    (hF : List.Forall₂ (fun c d => ElemSim c d ∧ (c.tag ≠ tn → d = c)) l l')
    (hkeys : ∀ p ∈ rest, p.1 ≠ tn) :
    remapAllOkB m rest l' = remapAllOkB m rest l := by
  induction rest with
  | nil => rfl
  | cons p t ih =>
    unfold remapAllOkB
    rw [List.all_cons, List.all_cons]
    have ihx := ih fun q hq => hkeys q (List.mem_cons_of_mem p hq)
    unfold remapAllOkB at ihx
    rw [ihx]
    cases hmid : idsToMap p.2 with
    | none => rfl
    | some mid =>
      dsimp only
      rw [textRemap_all_congr (idMapGet m mid) tn p.1
        (hkeys p (List.mem_cons_self p t)) hF]

theorem tags_to_remap_keys_nodup : (tags_to_remap.map Prod.fst).Nodup := by
  decide

theorem remapAll_isOk (m : IdMap) (ts : List (String × XnatType)) (e : Elem)
    (hnd : (ts.map Prod.fst).Nodup) :
    isOkE (remapAll m ts e) = remapAllOkB m ts e.children := by
  induction ts generalizing e with
  | nil => rfl
  | cons p rest ih =>
    obtain ⟨tn, ty⟩ := p
    have hnd' : (rest.map Prod.fst).Nodup := (List.nodup_cons.mp hnd).2
    have hnotmem : tn ∉ rest.map Prod.fst := (List.nodup_cons.mp hnd).1
    unfold remapAll remapOneTag
    unfold remapAllOkB
    rw [List.all_cons]
    cases hmid : idsToMap ty with
    | none => rfl
    | some mid =>
      dsimp only
      cases hrt : remapTexts (idMapGet m mid) tn e.children with
      | error er =>
        have h1 : (e.children.all fun c =>
            decide (c.tag ≠ tn) || textOkB (idMapGet m mid) c.text) = false := by
          rw [← remapTexts_isOk, hrt]
          rfl
        rw [h1, Bool.false_and]
        rfl
      | ok l' =>
        have h1 : (e.children.all fun c =>
            decide (c.tag ≠ tn) || textOkB (idMapGet m mid) c.text) = true := by
          rw [← remapTexts_isOk, hrt]
          rfl
        rw [h1, Bool.true_and, ih (setChildren e l') hnd']
        show remapAllOkB m rest (setChildren e l').children = remapAllOkB m rest e.children
        rw [children_setChildren]
        exact remapAllOkB_congr m rest tn (remapTexts_struct _ _ _ _ hrt)
          fun q hq heq => hnotmem (heq ▸ List.mem_map_of_mem Prod.fst hq)

theorem remapAll_struct (m : IdMap) (ts : List (String × XnatType)) (e e' : Elem)
    (h : remapAll m ts e = .ok e') :
    e'.tag = e.tag ∧ e'.attrib = e.attrib ∧ List.Forall₂ ElemSim e.children e'.children := by
  induction ts generalizing e with
  | nil =>
    unfold remapAll at h
    cases h
    exact ⟨rfl, rfl, forall₂_elemSim_refl _⟩
  | cons p rest ih =>
    obtain ⟨tn, ty⟩ := p
    unfold remapAll remapOneTag at h
    cases hmid : idsToMap ty with
    | none => rw [hmid] at h; cases h
    | some mid =>
      rw [hmid] at h
      dsimp only at h
      cases hrt : remapTexts (idMapGet m mid) tn e.children with
      | error er => rw [hrt] at h; cases h
      | ok l' =>
        rw [hrt] at h
        obtain ⟨ht, ha, hF⟩ := ih (setChildren e l') h
        rw [tag_setChildren] at ht
        rw [attrib_setChildren] at ha
        rw [children_setChildren] at hF
        refine ⟨ht, ha, ?_⟩
        exact forall₂_elemSim_trans
          ((remapTexts_struct _ _ _ _ hrt).imp fun _ _ hcd => hcd.1) hF

end Xmigrate

namespace Xmigrate

theorem rewrite_uris_isOk (c : Elem) (sp dp : String) :
    isOkE (rewrite_uris c sp dp) = uriOkB sp c := by
  unfold rewrite_uris uriOkB
  cases h : getAttr c "URI" with
  | none => rfl
  | some u =>
    dsimp only
    by_cases hs : strContains u sp
    · rw [if_pos hs, hs]
      rfl
    · rw [if_neg hs]
      simp only [Bool.not_eq_true] at hs
      rw [hs]
      rfl

theorem rewrite_uris_struct (c d : Elem) (sp dp : String)
    (h : rewrite_uris c sp dp = .ok d) : d.tag = c.tag ∧ d.children = c.children := by
  unfold rewrite_uris at h
  cases hu : getAttr c "URI" with
  | none =>
    rw [hu] at h
    cases h
    exact ⟨rfl, rfl⟩
  | some u =>
    rw [hu] at h
    dsimp only at h
    by_cases hs : strContains u sp
    · rw [if_pos hs] at h
      cases h
      cases c
      exact ⟨rfl, rfl⟩
    · rw [if_neg hs] at h
      cases h

theorem rewriteTagged_isOk (sp dp tn : String) (l : List Elem) :
    isOkE (rewriteTagged sp dp tn l) = rewriteTaggedOkB sp tn l := by
  induction l with
  | nil => rfl
  | cons c t ih =>
    unfold rewriteTagged rewriteTaggedOkB
    rw [List.all_cons]
    by_cases hc : c.tag = tn
    · have hd : (decide (c.tag ≠ tn)) = false := by simp [hc]
      rw [if_pos hc, hd, Bool.false_or]
      cases hr : rewrite_uris c sp dp with
      | error er =>
        have h1 : uriOkB sp c = false := by
          rw [← rewrite_uris_isOk c sp dp, hr]
          rfl
        rw [h1, Bool.false_and]
        rfl
      | ok c' =>
        have h1 : uriOkB sp c = true := by
          rw [← rewrite_uris_isOk c sp dp, hr]
          rfl
        rw [h1, Bool.true_and]
        unfold rewriteTaggedOkB at ih
        rw [← ih]
        cases ht : rewriteTagged sp dp tn t with
        | error er => rfl
        | ok cs => rfl
    · have hd : (decide (c.tag ≠ tn)) = true := by simp [hc]
      rw [if_neg hc, hd, Bool.true_or, Bool.true_and]
      unfold rewriteTaggedOkB at ih
      rw [← ih]
      cases ht : rewriteTagged sp dp tn t with
      | error er => rfl
      | ok cs => rfl

theorem rewriteTagged_struct (sp dp tn : String) (l l' : List Elem)
    (h : rewriteTagged sp dp tn l = .ok l') :
    List.Forall₂ (fun c d => d.tag = c.tag ∧ d.children = c.children ∧ (c.tag ≠ tn → d = c))
      l l' := by
  induction l generalizing l' with
  | nil =>
    unfold rewriteTagged at h
    cases h
    exact List.Forall₂.nil
  | cons c t ih =>
    unfold rewriteTagged at h
    by_cases hc : c.tag = tn
    · rw [if_pos hc] at h
      cases hr : rewrite_uris c sp dp with
      | error er => rw [hr] at h; cases h
      | ok c' =>
        rw [hr] at h
        cases ht : rewriteTagged sp dp tn t with
        | error er => rw [ht] at h; cases h
        | ok cs =>
          rw [ht] at h
          cases h
          obtain ⟨h1, h2⟩ := rewrite_uris_struct c c' sp dp hr
          exact List.Forall₂.cons ⟨h1, h2, fun hne => absurd hc hne⟩ (ih cs ht)
    · rw [if_neg hc] at h
      cases ht : rewriteTagged sp dp tn t with
      | error er => rw [ht] at h; cases h
      | ok cs =>
        rw [ht] at h
        cases h
        exact List.Forall₂.cons ⟨rfl, rfl, fun _ => rfl⟩ (ih cs ht)

theorem rewriteNested_isOk (sp dp ot it : String) (l : List Elem) :
    isOkE (rewriteNested sp dp ot it l) = rewriteNestedOkB sp ot it l := by
  induction l with
  | nil => rfl
  | cons c t ih =>
    unfold rewriteNested rewriteNestedOkB
    rw [List.all_cons]
    by_cases hc : c.tag = ot
    · have hd : (decide (c.tag ≠ ot)) = false := by simp [hc]
      rw [if_pos hc, hd, Bool.false_or]
      cases hr : rewriteTagged sp dp it c.children with
      | error er =>
        have h1 : rewriteTaggedOkB sp it c.children = false := by
          rw [← rewriteTagged_isOk sp dp it c.children, hr]
          rfl
        rw [h1, Bool.false_and]
        rfl
      | ok cs =>
        have h1 : rewriteTaggedOkB sp it c.children = true := by
          rw [← rewriteTagged_isOk sp dp it c.children, hr]
          rfl
        rw [h1, Bool.true_and]
        unfold rewriteNestedOkB at ih
        rw [← ih]
        cases ht : rewriteNested sp dp ot it t with
        | error er => rfl
        | ok cs' => rfl
    · have hd : (decide (c.tag ≠ ot)) = true := by simp [hc]
      rw [if_neg hc, hd, Bool.true_or, Bool.true_and]
      unfold rewriteNestedOkB at ih
      rw [← ih]
      cases ht : rewriteNested sp dp ot it t with
      | error er => rfl
      | ok cs' => rfl

theorem rewriteNested_struct (sp dp ot it : String) (l l' : List Elem)
    (h : rewriteNested sp dp ot it l = .ok l') :
    List.Forall₂ (fun c d => d.tag = c.tag ∧ (c.tag ≠ ot → d = c)) l l' := by
  induction l generalizing l' with
  | nil =>
    unfold rewriteNested at h
    cases h
    exact List.Forall₂.nil
  | cons c t ih =>
    unfold rewriteNested at h
    by_cases hc : c.tag = ot
    · rw [if_pos hc] at h
      cases hr : rewriteTagged sp dp it c.children with
      | error er => rw [hr] at h; cases h
      | ok cs =>
        rw [hr] at h
        cases ht : rewriteNested sp dp ot it t with
        | error er => rw [ht] at h; cases h
        | ok rest' =>
          rw [ht] at h
          cases h
          exact List.Forall₂.cons ⟨tag_setChildren c cs, fun hne => absurd hc hne⟩
            (ih rest' ht)
    · rw [if_neg hc] at h
      cases ht : rewriteNested sp dp ot it t with
      | error er => rw [ht] at h; cases h
      | ok rest' =>
        rw [ht] at h
        cases h
        exact List.Forall₂.cons ⟨rfl, fun _ => rfl⟩ (ih rest' ht)

theorem rewriteTaggedOkB_congr_sim (sp tn : String) {l l' : List Elem}
    (hF : List.Forall₂ ElemSim l l') :
    rewriteTaggedOkB sp tn l' = rewriteTaggedOkB sp tn l := by
  induction hF with
  | nil => rfl
  | @cons c d lt lt' hcd htl ih =>
    unfold rewriteTaggedOkB at ih ⊢
    rw [List.all_cons, List.all_cons, ih]
    obtain ⟨htag, hattr, _⟩ := hcd
    unfold uriOkB getAttr
    rw [htag, hattr]

theorem rewriteNestedOkB_congr_tc (sp ot it : String) {l l' : List Elem}
    (hF : List.Forall₂ (fun c d => d.tag = c.tag ∧ d.children = c.children) l l') :
    rewriteNestedOkB sp ot it l' = rewriteNestedOkB sp ot it l := by
  induction hF with
  | nil => rfl
  | @cons c d lt lt' hcd htl ih =>
    unfold rewriteNestedOkB at ih ⊢
    rw [List.all_cons, List.all_cons, ih, hcd.1, hcd.2]

theorem rewriteNestedOkB_congr_unmatched (sp ot' it' ot : String) (hne : ot' ≠ ot)
    {l l' : List Elem}
    (hF : List.Forall₂ (fun c d => d.tag = c.tag ∧ (c.tag ≠ ot → d = c)) l l') :
    rewriteNestedOkB sp ot' it' l' = rewriteNestedOkB sp ot' it' l := by
  induction hF with
  | nil => rfl
  | @cons c d lt lt' hcd htl ih =>
    unfold rewriteNestedOkB at ih ⊢
    rw [List.all_cons, List.all_cons, ih]
    by_cases hco : c.tag = ot
    · have hoo : ¬ ot = ot' := fun hx => hne hx.symm
      have h1 : (decide (c.tag ≠ ot')) = true := by
        simp [hco, hoo]
      have h2 : (decide (d.tag ≠ ot')) = true := by
        simp [hcd.1, hco, hoo]
      rw [h1, h2, Bool.true_or, Bool.true_or]
    · rw [hcd.2 hco]

end Xmigrate

namespace Xmigrate

/-- `map_xml` succeeds exactly when `mapXmlOkB` holds: every
identifier-reference child resolves in the identifier map and every URI
child (directly, under `out`, or under `resources`) contains the source
root. -/
theorem map_xml_isOk (source destination : ProjectInfo) (m : IdMap) (element : Elem)
    (ty : XnatType) :
    isOkE (map_xml source destination m element ty)
      = mapXmlOkB source destination m element ty := by
  unfold map_xml mapXmlOkB
  dsimp only
  generalize preSteps destination element ty = e
  cases hra : remapAll m tags_to_remap e with
  | error er =>
    have h1 : remapAllOkB m tags_to_remap e.children = false := by
      rw [← remapAll_isOk m tags_to_remap e tags_to_remap_keys_nodup, hra]
      rfl
    rw [h1, Bool.false_and]
    rfl
  | ok e1 =>
    dsimp only
    have h1 : remapAllOkB m tags_to_remap e.children = true := by
      rw [← remapAll_isOk m tags_to_remap e tags_to_remap_keys_nodup, hra]
      rfl
    rw [h1, Bool.true_and]
    obtain ⟨ht1, ha1, hF1⟩ := remapAll_struct m tags_to_remap e e1 hra
    cases hp1 : rewriteTagged (source.archive_path ++ "/" ++ source.id)
        (destination.archive_path ++ "/" ++ destination.id) (nsTag xnatNS "file")
        e1.children with
    | error er =>
      have h2 : rewriteTaggedOkB (source.archive_path ++ "/" ++ source.id)
          (nsTag xnatNS "file") e.children = false := by
        rw [← rewriteTaggedOkB_congr_sim (source.archive_path ++ "/" ++ source.id)
            (nsTag xnatNS "file") hF1,
          ← rewriteTagged_isOk (source.archive_path ++ "/" ++ source.id)
            (destination.archive_path ++ "/" ++ destination.id) (nsTag xnatNS "file")
            e1.children, hp1]
        rfl
      rw [h2, Bool.false_and]
      rfl
    | ok cs1 =>
      dsimp only
      have h2 : rewriteTaggedOkB (source.archive_path ++ "/" ++ source.id)
          (nsTag xnatNS "file") e.children = true := by
        rw [← rewriteTaggedOkB_congr_sim (source.archive_path ++ "/" ++ source.id)
            (nsTag xnatNS "file") hF1,
          ← rewriteTagged_isOk (source.archive_path ++ "/" ++ source.id)
            (destination.archive_path ++ "/" ++ destination.id) (nsTag xnatNS "file")
            e1.children, hp1]
        rfl
      rw [h2, Bool.true_and]
      have hF2 := rewriteTagged_struct (source.archive_path ++ "/" ++ source.id)
        (destination.archive_path ++ "/" ++ destination.id) (nsTag xnatNS "file")
        e1.children cs1 hp1
      rw [children_setChildren]
      cases hp2 : rewriteNested (source.archive_path ++ "/" ++ source.id)
          (destination.archive_path ++ "/" ++ destination.id) (nsTag xnatNS "out")
          (nsTag xnatNS "file") cs1 with
      | error er =>
        have h3 : rewriteNestedOkB (source.archive_path ++ "/" ++ source.id)
            (nsTag xnatNS "out") (nsTag xnatNS "file") e.children = false := by
          rw [← rewriteNestedOkB_congr_tc (source.archive_path ++ "/" ++ source.id)
              (nsTag xnatNS "out") (nsTag xnatNS "file")
              (hF1.imp fun _ _ s => ⟨s.1, s.2.2⟩),
            ← rewriteNestedOkB_congr_tc (source.archive_path ++ "/" ++ source.id)
              (nsTag xnatNS "out") (nsTag xnatNS "file")
              (hF2.imp fun _ _ s => ⟨s.1, s.2.1⟩),
            ← rewriteNested_isOk (source.archive_path ++ "/" ++ source.id)
              (destination.archive_path ++ "/" ++ destination.id) (nsTag xnatNS "out")
              (nsTag xnatNS "file") cs1, hp2]
          rfl
        rw [h3, Bool.false_and]
        rfl
      | ok cs2 =>
        dsimp only
        have h3 : rewriteNestedOkB (source.archive_path ++ "/" ++ source.id)
            (nsTag xnatNS "out") (nsTag xnatNS "file") e.children = true := by
          rw [← rewriteNestedOkB_congr_tc (source.archive_path ++ "/" ++ source.id)
              (nsTag xnatNS "out") (nsTag xnatNS "file")
              (hF1.imp fun _ _ s => ⟨s.1, s.2.2⟩),
            ← rewriteNestedOkB_congr_tc (source.archive_path ++ "/" ++ source.id)
              (nsTag xnatNS "out") (nsTag xnatNS "file")
              (hF2.imp fun _ _ s => ⟨s.1, s.2.1⟩),
            ← rewriteNested_isOk (source.archive_path ++ "/" ++ source.id)
              (destination.archive_path ++ "/" ++ destination.id) (nsTag xnatNS "out")
              (nsTag xnatNS "file") cs1, hp2]
          rfl
        rw [h3, Bool.true_and]
        have hF3 := rewriteNested_struct (source.archive_path ++ "/" ++ source.id)
          (destination.archive_path ++ "/" ++ destination.id) (nsTag xnatNS "out")
          (nsTag xnatNS "file") cs1 cs2 hp2
        rw [children_setChildren]
        have hne : nsTag xnatNS "resources" ≠ nsTag xnatNS "out" := by decide
        cases hp3 : rewriteNested (source.archive_path ++ "/" ++ source.id)
            (destination.archive_path ++ "/" ++ destination.id) (nsTag xnatNS "resources")
            (nsTag xnatNS "resource") cs2 with
        | error er =>
          have h4 : rewriteNestedOkB (source.archive_path ++ "/" ++ source.id)
              (nsTag xnatNS "resources") (nsTag xnatNS "resource") e.children = false := by
            rw [← rewriteNestedOkB_congr_tc (source.archive_path ++ "/" ++ source.id)
                (nsTag xnatNS "resources") (nsTag xnatNS "resource")
                (hF1.imp fun _ _ s => ⟨s.1, s.2.2⟩),
              ← rewriteNestedOkB_congr_tc (source.archive_path ++ "/" ++ source.id)
                (nsTag xnatNS "resources") (nsTag xnatNS "resource")
                (hF2.imp fun _ _ s => ⟨s.1, s.2.1⟩),
              ← rewriteNestedOkB_congr_unmatched (source.archive_path ++ "/" ++ source.id)
                (nsTag xnatNS "resources") (nsTag xnatNS "resource") (nsTag xnatNS "out")
                hne hF3,
              ← rewriteNested_isOk (source.archive_path ++ "/" ++ source.id)
                (destination.archive_path ++ "/" ++ destination.id)
                (nsTag xnatNS "resources") (nsTag xnatNS "resource") cs2, hp3]
            rfl
          rw [h4]
          rfl
        | ok cs3 =>
          have h4 : rewriteNestedOkB (source.archive_path ++ "/" ++ source.id)
              (nsTag xnatNS "resources") (nsTag xnatNS "resource") e.children = true := by
            rw [← rewriteNestedOkB_congr_tc (source.archive_path ++ "/" ++ source.id)
                (nsTag xnatNS "resources") (nsTag xnatNS "resource")
                (hF1.imp fun _ _ s => ⟨s.1, s.2.2⟩),
              ← rewriteNestedOkB_congr_tc (source.archive_path ++ "/" ++ source.id)
                (nsTag xnatNS "resources") (nsTag xnatNS "resource")
                (hF2.imp fun _ _ s => ⟨s.1, s.2.1⟩),
              ← rewriteNestedOkB_congr_unmatched (source.archive_path ++ "/" ++ source.id)
                (nsTag xnatNS "resources") (nsTag xnatNS "resource") (nsTag xnatNS "out")
                hne hF3,
              ← rewriteNested_isOk (source.archive_path ++ "/" ++ source.id)
                (destination.archive_path ++ "/" ++ destination.id)
                (nsTag xnatNS "resources") (nsTag xnatNS "resource") cs2, hp3]
            rfl
          rw [h4]
          rfl

end Xmigrate

namespace Xmigrate

/-! ## C3: the identifier map is never overwritten with a different value

`WriteBound f t k idOnly` says a step `f` either leaves the identifier map
and the overwrite flag alone, or performs exactly one `update_id_map` write
into partition `t` at key `k` (with value `k` itself when `idOnly`, as for
scans). -/

def WriteBound (f : MigState → StepRes) (t : XnatType) (k : String) (idOnly : Bool) :
    Prop :=
  ∀ st,
    (((f st).state).idMap = st.idMap ∧
     ((f st).state).overwroteDifferent = st.overwroteDifferent) ∨
    (∃ v, (idOnly = true → v = k) ∧
      ((f st).state).idMap = idMapSet st.idMap t (alInsert (idMapGet st.idMap t) k v) ∧
      ((f st).state).overwroteDifferent
        = (st.overwroteDifferent || overwFlagB st.idMap t k v))

theorem create_subject_writeBound (ctx : Ctx) (s : SubjectRec) :
    WriteBound (create_subject ctx s) .subject s.sid false := by
  intro st
  unfold create_subject
  dsimp only
  repeat' split
  all_goals first
    | exact Or.inl ⟨rfl, rfl⟩
    | (simp only [updateIdMapSt, idsToMap, StepRes.state]
       exact Or.inr (Exists.intro _ (And.intro (fun h => nomatch h) (And.intro rfl rfl))))

theorem create_experiment_writeBound (ctx : Ctx) (s : SubjectRec) (e : ExperimentRec) :
    WriteBound (create_experiment ctx s e) .experiment e.eid false := by
  intro st
  unfold create_experiment
  dsimp only
  repeat' split
  all_goals first
    | exact Or.inl ⟨rfl, rfl⟩
    | (simp only [updateIdMapSt, idsToMap, StepRes.state]
       exact Or.inr (Exists.intro _ (And.intro (fun h => nomatch h) (And.intro rfl rfl))))

theorem create_scan_writeBound (ctx : Ctx) (s : SubjectRec) (e : ExperimentRec)
    (sc : ScanRec) : WriteBound (create_scan ctx s e sc) .scan sc.sid true := by
  intro st
  unfold create_scan
  dsimp only
  repeat' split
  all_goals first
    | exact Or.inl ⟨rfl, rfl⟩
    | (simp only [updateIdMapSt, idsToMap, StepRes.state]
       exact Or.inr (Exists.intro sc.sid (And.intro (fun _ => rfl) (And.intro rfl rfl))))

theorem create_assessor_writeBound (ctx : Ctx) (s : SubjectRec) (e : ExperimentRec)
    (a : AssessorRec) : WriteBound (create_assessor ctx s e a) .experiment a.aid false := by
  intro st
  unfold create_assessor
  dsimp only
  repeat' split
  all_goals first
    | exact Or.inl ⟨rfl, rfl⟩
    | (simp only [updateIdMapSt, idsToMap, StepRes.state]
       exact Or.inr (Exists.intro _ (And.intro (fun h => nomatch h) (And.intro rfl rfl))))

theorem create_project_writeBound (ctx : Ctx) (projXml : Elem) :
    WriteBound (create_project ctx projXml) .project ctx.source.id false := by
  intro st
  unfold create_project
  dsimp only
  repeat' split
  all_goals first
    | exact Or.inl ⟨rfl, rfl⟩
    | (simp only [updateIdMapSt, idsToMap, StepRes.state]
       exact Or.inr (Exists.intro _ (And.intro (fun h => nomatch h) (And.intro rfl rfl))))

end Xmigrate

namespace Xmigrate

theorem idMapGet_set_self (m : IdMap) (t : XnatType) (p : List (String × String)) :
    idMapGet (idMapSet m t p) t = p := by
  unfold idMapGet idMapSet
  rw [alLookup_insert_self]
  rfl

theorem alLookup_insert_isSome {α β : Type} [DecidableEq α]
    (part : List (α × β)) (k0 : α) (v0 : β) (k : α)
    (h : (alLookup (alInsert part k0 v0) k).isSome = true) :
    k = k0 ∨ (alLookup part k).isSome = true := by
  by_cases hk : k = k0
  · exact Or.inl hk
  · right
    rw [alLookup_insert_ne part k0 k v0 (fun hx => hk hx.symm)] at h
    exact h

theorem scanInv_insert {part : List (String × String)} (k0 : String)
    (h : ∀ k v, alLookup part k = some v → v = k) :
    ∀ k v, alLookup (alInsert part k0 k0) k = some v → v = k := by
  intro k v hkv
  by_cases hk : k = k0
  · subst hk
    rw [alLookup_insert_self] at hkv
    cases hkv
    rfl
  · rw [alLookup_insert_ne part k0 k k0 (fun hx => hk hx.symm)] at hkv
    exact h k v hkv

theorem overwFlagB_of_none {m : IdMap} {t : XnatType} {k : String} (v : String)
    (h : alLookup (idMapGet m t) k = none) : overwFlagB m t k v = false := by
  unfold overwFlagB
  rw [h]

theorem overwFlagB_scan_self {m : IdMap} {k : String}
    (h : ∀ k' v, alLookup (idMapGet m .scan) k' = some v → v = k') :
    overwFlagB m .scan k k = false := by
  unfold overwFlagB
  cases hl : alLookup (idMapGet m .scan) k with
  | none => rfl
  | some v0 =>
    have := h k v0 hl
    subst this
    simp

/-- The C3 invariant: the overwrite flag is clear, no already-written
subject key is among the still-pending subject ids, no already-written
experiment-partition key is among the still-pending experiment and assessor
ids, and every scan-partition entry maps an id to itself. -/
def C3Inv (st : MigState) (pendS pendEA : List String) : Prop :=
  st.overwroteDifferent = false ∧
  (∀ k, (alLookup (idMapGet st.idMap .subject) k).isSome = true → k ∉ pendS) ∧
  (∀ k, (alLookup (idMapGet st.idMap .experiment) k).isSome = true → k ∉ pendEA) ∧
  (∀ k v, alLookup (idMapGet st.idMap .scan) k = some v → v = k)

def C3Post (r : StepRes) (pendS pendEA : List String) : Prop :=
  match r with
  | .ok s => C3Inv s pendS pendEA
  | .err _ s => s.overwroteDifferent = false

theorem c3Post_of_inv {r : StepRes} {pendS pendEA : List String}
    (h : C3Inv r.state pendS pendEA) : C3Post r pendS pendEA := by
  cases r with
  | ok s => exact h
  | err e s => exact h.1

theorem c3_step_subject {f : MigState → StepRes} {k : String}
    (hw : WriteBound f .subject k false) (st : MigState)
    (pendS pendS' pendEA : List String) (hinv : C3Inv st pendS pendEA)
    (hkmem : k ∈ pendS) (hmono : ∀ x, x ∉ pendS → x ∉ pendS') (hknotin : k ∉ pendS') :
    C3Post (f st) pendS' pendEA := by
  obtain ⟨hflag, hS, hE, hScan⟩ := hinv
  apply c3Post_of_inv
  rcases hw st with ⟨hm, hf⟩ | ⟨v, _, hm, hf⟩
  · refine ⟨by rw [hf, hflag], ?_, ?_, ?_⟩
    · intro k' hk'
      rw [hm] at hk'
      exact hmono k' (hS k' hk')
    · intro k' hk'
      rw [hm] at hk'
      exact hE k' hk'
    · intro k' v' hk'
      rw [hm] at hk'
      exact hScan k' v' hk'
  · have hnone : alLookup (idMapGet st.idMap .subject) k = none := by
      cases hl : alLookup (idMapGet st.idMap .subject) k with
      | none => rfl
      | some v0 =>
        exact absurd (hS k (by rw [hl]; rfl)) (fun hns => hns hkmem)
    refine ⟨?_, ?_, ?_, ?_⟩
    · rw [hf, hflag, overwFlagB_of_none v hnone]
      rfl
    · intro k' hk'
      rw [hm, idMapGet_set_self] at hk'
      rcases alLookup_insert_isSome _ _ _ _ hk' with hkk | hold
      · subst hkk
        exact hknotin
      · exact hmono k' (hS k' hold)
    · intro k' hk'
      rw [hm, idMapGet_set_ne _ _ _ _ (by decide)] at hk'
      exact hE k' hk'
    · intro k' v' hk'
      rw [hm, idMapGet_set_ne _ _ _ _ (by decide)] at hk'
      exact hScan k' v' hk'

theorem c3_step_expkey {f : MigState → StepRes} {k : String}
    (hw : WriteBound f .experiment k false) (st : MigState)
    (pendS pendEA pendEA' : List String) (hinv : C3Inv st pendS pendEA)
    (hkmem : k ∈ pendEA) (hmono : ∀ x, x ∉ pendEA → x ∉ pendEA')
    (hknotin : k ∉ pendEA') :
    C3Post (f st) pendS pendEA' := by
  obtain ⟨hflag, hS, hE, hScan⟩ := hinv
  apply c3Post_of_inv
  rcases hw st with ⟨hm, hf⟩ | ⟨v, _, hm, hf⟩
  · refine ⟨by rw [hf, hflag], ?_, ?_, ?_⟩
    · intro k' hk'
      rw [hm] at hk'
      exact hS k' hk'
    · intro k' hk'
      rw [hm] at hk'
      exact hmono k' (hE k' hk')
    · intro k' v' hk'
      rw [hm] at hk'
      exact hScan k' v' hk'
  · have hnone : alLookup (idMapGet st.idMap .experiment) k = none := by
      cases hl : alLookup (idMapGet st.idMap .experiment) k with
      | none => rfl
      | some v0 =>
        exact absurd (hE k (by rw [hl]; rfl)) (fun hns => hns hkmem)
    refine ⟨?_, ?_, ?_, ?_⟩
    · rw [hf, hflag, overwFlagB_of_none v hnone]
      rfl
    · intro k' hk'
      rw [hm, idMapGet_set_ne _ _ _ _ (by decide)] at hk'
      exact hS k' hk'
    · intro k' hk'
      rw [hm, idMapGet_set_self] at hk'
      rcases alLookup_insert_isSome _ _ _ _ hk' with hkk | hold
      · subst hkk
        exact hknotin
      · exact hmono k' (hE k' hold)
    · intro k' v' hk'
      rw [hm, idMapGet_set_ne _ _ _ _ (by decide)] at hk'
      exact hScan k' v' hk'

theorem c3_step_scankey {f : MigState → StepRes} {k : String}
    (hw : WriteBound f .scan k true) (st : MigState)
    (pendS pendEA : List String) (hinv : C3Inv st pendS pendEA) :
    C3Post (f st) pendS pendEA := by
  obtain ⟨hflag, hS, hE, hScan⟩ := hinv
  apply c3Post_of_inv
  rcases hw st with ⟨hm, hf⟩ | ⟨v, hv, hm, hf⟩
  · refine ⟨by rw [hf, hflag], ?_, ?_, ?_⟩
    · intro k' hk'
      rw [hm] at hk'
      exact hS k' hk'
    · intro k' hk'
      rw [hm] at hk'
      exact hE k' hk'
    · intro k' v' hk'
      rw [hm] at hk'
      exact hScan k' v' hk'
  · have hvk : v = k := hv rfl
    subst hvk
    refine ⟨?_, ?_, ?_, ?_⟩
    · rw [hf, hflag, overwFlagB_scan_self hScan]
      rfl
    · intro k' hk'
      rw [hm, idMapGet_set_ne _ _ _ _ (by decide)] at hk'
      exact hS k' hk'
    · intro k' hk'
      rw [hm, idMapGet_set_ne _ _ _ _ (by decide)] at hk'
      exact hE k' hk'
    · intro k' v' hk'
      rw [hm, idMapGet_set_self] at hk'
      exact scanInv_insert v hScan k' v' hk'

end Xmigrate

namespace Xmigrate

def subjIdsOf (l : List SubjectRec) : List String := l.map fun s => s.sid

def eaIdsOfExp (e : ExperimentRec) : List String :=
  e.eid :: e.assessors.map fun a => a.aid

def eaIdsOfSubj (s : SubjectRec) : List String :=
  (s.experiments.map eaIdsOfExp).join

def eaIdsOf (l : List SubjectRec) : List String :=
  (l.map eaIdsOfSubj).join

theorem c3Post_flag {r : StepRes} {pendS pendEA : List String}
    (h : C3Post r pendS pendEA) : (r.state).overwroteDifferent = false := by
  cases r with
  | ok s => exact h.1
  | err e s => exact h

theorem c3_scans (ctx : Ctx) (s : SubjectRec) (e : ExperimentRec) (scans : List ScanRec)
    (st : MigState) (pendS pendEA : List String) (hinv : C3Inv st pendS pendEA) :
    C3Post (walkList (create_scan ctx s e) scans st) pendS pendEA := by
  induction scans generalizing st with
  | nil => exact hinv
  | cons sc t ih =>
    rw [walkList_cons]
    have hstep := c3_step_scankey (create_scan_writeBound ctx s e sc) st pendS pendEA hinv
    cases hcs : create_scan ctx s e sc st with
    | ok s1 =>
      rw [hcs] at hstep
      rw [then_ok]
      exact ih s1 hstep
    | err er s1 =>
      rw [hcs] at hstep
      rw [then_err]
      exact hstep

theorem c3_assessors (ctx : Ctx) (s : SubjectRec) (e : ExperimentRec)
    (asses : List AssessorRec) (st : MigState) (pendS rest : List String)
    (hinv : C3Inv st pendS ((asses.map fun a => a.aid) ++ rest))
    (hnd : ((asses.map fun a => a.aid) ++ rest).Nodup) :
    C3Post (walkList (create_assessor ctx s e) asses st) pendS rest := by
  induction asses generalizing st with
  | nil => exact hinv
  | cons a t ih =>
    rw [walkList_cons]
    rw [List.map_cons, List.cons_append] at hinv hnd
    have hnd' := List.nodup_cons.mp hnd
    have hmem : a.aid ∈ a.aid :: ((t.map fun a => a.aid) ++ rest) := List.mem_cons_self _ _
    have hmono : ∀ x, x ∉ a.aid :: ((t.map fun a => a.aid) ++ rest) →
        x ∉ (t.map fun a => a.aid) ++ rest :=
      fun x hx hmem2 => hx (List.mem_cons_of_mem _ hmem2)
    have hstep := c3_step_expkey (create_assessor_writeBound ctx s e a) st pendS _ _
      hinv hmem hmono hnd'.1
    cases hca : create_assessor ctx s e a st with
    | ok s1 =>
      rw [hca] at hstep
      rw [then_ok]
      exact ih s1 hstep hnd'.2
    | err er s1 =>
      rw [hca] at hstep
      rw [then_err]
      exact hstep

theorem c3_experiments (ctx : Ctx) (dtypes : List String) (s : SubjectRec)
    (exps : List ExperimentRec) (st : MigState) (pendS rest : List String)
    (hinv : C3Inv st pendS ((exps.map eaIdsOfExp).join ++ rest))
    (hnd : ((exps.map eaIdsOfExp).join ++ rest).Nodup) :
    C3Post (walkList (processExperiment ctx dtypes s) exps st) pendS rest := by
  induction exps generalizing st with
  | nil => exact hinv
  | cons e t ih =>
    rw [walkList_cons]
    have hpend : ((e :: t).map eaIdsOfExp).join ++ rest
        = e.eid :: ((e.assessors.map fun a => a.aid) ++ ((t.map eaIdsOfExp).join ++ rest)) := by
      simp [eaIdsOfExp, List.append_assoc]
    rw [hpend] at hinv hnd
    have hnd' := List.nodup_cons.mp hnd
    unfold processExperiment
    by_cases hdt : e.xsiType ∉ dtypes
    · rw [if_pos hdt, then_err]
      exact hinv.1
    · rw [if_neg hdt]
      have hmem : e.eid ∈ e.eid :: ((e.assessors.map fun a => a.aid)
          ++ ((t.map eaIdsOfExp).join ++ rest)) := List.mem_cons_self _ _
      have hmono : ∀ x, x ∉ e.eid :: ((e.assessors.map fun a => a.aid)
          ++ ((t.map eaIdsOfExp).join ++ rest)) →
          x ∉ (e.assessors.map fun a => a.aid) ++ ((t.map eaIdsOfExp).join ++ rest) :=
        fun x hx hmem2 => hx (List.mem_cons_of_mem _ hmem2)
      have hnotin : e.eid ∉ (e.assessors.map fun a => a.aid)
          ++ ((t.map eaIdsOfExp).join ++ rest) := hnd'.1
      have hstep := c3_step_expkey (create_experiment_writeBound ctx s e) st pendS _ _
        hinv hmem hmono hnotin
      cases hce : create_experiment ctx s e st with
      | err er s1 =>
        rw [hce] at hstep
        rw [then_err, then_err, then_err]
        exact hstep
      | ok s1 =>
        rw [hce] at hstep
        rw [then_ok]
        have hsc := c3_scans ctx s e e.scans s1 pendS _ hstep
        cases hws : walkList (create_scan ctx s e) e.scans s1 with
        | err er s2 =>
          rw [hws] at hsc
          rw [then_err, then_err]
          exact hsc
        | ok s2 =>
          rw [hws] at hsc
          rw [then_ok]
          have has := c3_assessors ctx s e e.assessors s2 pendS
            ((t.map eaIdsOfExp).join ++ rest) hsc hnd'.2
          cases hwa : walkList (create_assessor ctx s e) e.assessors s2 with
          | err er s3 =>
            rw [hwa] at has
            rw [then_err]
            exact has
          | ok s3 =>
            rw [hwa] at has
            rw [then_ok]
            exact ih s3 has hnd'.2.of_append_right

end Xmigrate

namespace Xmigrate

theorem c3_subjects (ctx : Ctx) (dtypes : List String) (subs : List SubjectRec)
    (st : MigState) (hinv : C3Inv st (subjIdsOf subs) (eaIdsOf subs))
    (hndS : (subjIdsOf subs).Nodup) (hndEA : (eaIdsOf subs).Nodup) :
    C3Post (walkList (processSubject ctx dtypes) subs st) [] [] := by
  induction subs generalizing st with
  | nil =>
    exact hinv
  | cons s rest ih =>
    rw [walkList_cons]
    have hS : subjIdsOf (s :: rest) = s.sid :: subjIdsOf rest := rfl
    have hEA : eaIdsOf (s :: rest)
        = (s.experiments.map eaIdsOfExp).join ++ eaIdsOf rest := by
      simp [eaIdsOf, eaIdsOfSubj]
    rw [hS] at hinv hndS
    rw [hEA] at hinv hndEA
    have hndS' := List.nodup_cons.mp hndS
    unfold processSubject
    have hmem : s.sid ∈ s.sid :: subjIdsOf rest := List.mem_cons_self _ _
    have hmono : ∀ x, x ∉ s.sid :: subjIdsOf rest → x ∉ subjIdsOf rest :=
      fun x hx hmem2 => hx (List.mem_cons_of_mem _ hmem2)
    have hstep := c3_step_subject (create_subject_writeBound ctx s) st _ _ _
      hinv hmem hmono hndS'.1
    cases hcs : create_subject ctx s st with
    | err er s1 =>
      rw [hcs] at hstep
      rw [then_err, then_err]
      exact hstep
    | ok s1 =>
      rw [hcs] at hstep
      rw [then_ok]
      have hexp := c3_experiments ctx dtypes s s.experiments s1 (subjIdsOf rest)
        (eaIdsOf rest) hstep hndEA
      cases hwe : walkList (processExperiment ctx dtypes s) s.experiments s1 with
      | err er s2 =>
        rw [hwe] at hexp
        rw [then_err]
        exact hexp
      | ok s2 =>
        rw [hwe] at hexp
        rw [then_ok]
        exact ih s2 hexp hndS'.2 hndEA.of_append_right

theorem c3_create_resources (ctx : Ctx) (projXml : Elem) (subs : List SubjectRec)
    (dtypes : List String) (ro : Bool) (st : MigState)
    (hmap : st.idMap = ([] : IdMap)) (hflag : st.overwroteDifferent = false)
    (hndS : (subjIdsOf subs).Nodup) (hndEA : (eaIdsOf subs).Nodup) :
    ((create_resources ctx projXml subs dtypes ro st).state).overwroteDifferent = false := by
  unfold create_resources
  have hw := create_project_writeBound ctx projXml st
  have hprojnone : alLookup (idMapGet st.idMap .project) ctx.source.id = none := by
    rw [hmap]
    rfl
  have hflag1 : ((create_project ctx projXml st).state).overwroteDifferent = false := by
    rcases hw with ⟨_, hf⟩ | ⟨v, _, _, hf⟩
    · rw [hf, hflag]
    · rw [hf, hflag, overwFlagB_of_none v hprojnone]
      rfl
  have hinv1 : C3Inv ((create_project ctx projXml st).state) (subjIdsOf subs)
      (eaIdsOf subs) := by
    rcases hw with ⟨hm, _⟩ | ⟨v, _, hm, _⟩
    · refine ⟨hflag1, ?_, ?_, ?_⟩
      · intro k hk
        rw [hm, hmap] at hk
        simp [idMapGet, alLookup] at hk
      · intro k hk
        rw [hm, hmap] at hk
        simp [idMapGet, alLookup] at hk
      · intro k v' hk
        rw [hm, hmap] at hk
        simp [idMapGet, alLookup] at hk
    · refine ⟨hflag1, ?_, ?_, ?_⟩
      · intro k hk
        rw [hm, hmap, idMapGet_set_ne _ _ _ _ (by decide)] at hk
        simp [idMapGet, alLookup] at hk
      · intro k hk
        rw [hm, hmap, idMapGet_set_ne _ _ _ _ (by decide)] at hk
        simp [idMapGet, alLookup] at hk
      · intro k v' hk
        rw [hm, hmap, idMapGet_set_ne _ _ _ _ (by decide)] at hk
        simp [idMapGet, alLookup] at hk
  cases hcp : create_project ctx projXml st with
  | err er s1 =>
    rw [hcp] at hflag1
    rw [then_err]
    exact hflag1
  | ok s1 =>
    rw [hcp] at hflag1 hinv1
    rw [then_ok]
    by_cases hro : ro = true
    · rw [hro, if_pos rfl]
      exact hflag1
    · have hro' : ro = false := by
        cases ro
        · rfl
        · exact absurd rfl hro
      rw [hro']
      simp only [Bool.false_eq_true, if_false]
      exact c3Post_flag (c3_subjects ctx dtypes subs s1 hinv1 hndS hndEA)

def PreservesFlag (f : MigState → StepRes) : Prop :=
  ∀ st, ((f st).state).overwroteDifferent = st.overwroteDifferent

theorem preservesFlag_then {f g : MigState → StepRes}
    (hf : PreservesFlag f) (hg : PreservesFlag g) :
    PreservesFlag (fun st => (f st).then g) := by
  intro st
  show (((f st).then g).state).overwroteDifferent = st.overwroteDifferent
  have h1 := hf st
  cases hfst : f st with
  | ok s =>
    rw [hfst] at h1
    rw [then_ok]
    exact (hg s).trans h1
  | err ε s =>
    rw [hfst] at h1
    rw [then_err]
    exact h1

theorem preservesFlag_walkList {α : Type} {f : α → MigState → StepRes}
    (hf : ∀ a, PreservesFlag (f a)) (l : List α) : PreservesFlag (walkList f l) := by
  induction l with
  | nil => intro st; rfl
  | cons a t ih => exact preservesFlag_then (hf a) ih

theorem shareKindStep_flag (kind : XnatType) (doneMaps : List IdMap)
    (entry : String × SharingInfo) : PreservesFlag (shareKindStep kind doneMaps entry) := by
  intro st
  unfold shareKindStep
  repeat' split
  all_goals rfl

theorem apply_sharing_flag (st : MigState) :
    ((apply_sharing st).state).overwroteDifferent = st.overwroteDifferent := by
  unfold apply_sharing
  dsimp only
  exact preservesFlag_then
    (preservesFlag_then
      (preservesFlag_walkList (fun en => shareKindStep_flag .subject st.doneMaps en)
        st.subjectSharing)
      (fun st2 => preservesFlag_walkList
        (fun en => shareKindStep_flag .experiment st.doneMaps en) st.experimentSharing st2))
    (fun st2 => preservesFlag_walkList
      (fun en => shareKindStep_flag .assessor st.doneMaps en) st.assessorSharing st2)
    { st with events := st.events ++ [Event.sharingInvoked] }

theorem c3_runPairStep (assign : DestAssign) (dtypes : List String) (ro : Bool)
    (p : PairInput) (st : MigState) (hflag : st.overwroteDifferent = false)
    (hndS : (subjIdsOf p.subjects).Nodup) (hndEA : (eaIdsOf p.subjects).Nodup) :
    ((runPairStep assign dtypes ro p st).state).overwroteDifferent = false := by
  unfold runPairStep
  dsimp only
  have hcr := c3_create_resources ⟨p.source, p.destination, assign⟩ p.projXml p.subjects
    dtypes ro { st with idMap := [] } rfl hflag hndS hndEA
  cases hc : create_resources ⟨p.source, p.destination, assign⟩ p.projXml p.subjects
      dtypes ro { st with idMap := [] } with
  | ok s2 =>
    rw [hc] at hcr
    rw [then_ok]
    exact hcr
  | err er s2 =>
    rw [hc] at hcr
    rw [then_err]
    exact hcr

theorem c3_pairs (assign : DestAssign) (dtypes : List String) (ro : Bool)
    (pairs : List PairInput) (st : MigState) (hflag : st.overwroteDifferent = false)
    (hwf : ∀ p ∈ pairs, (subjIdsOf p.subjects).Nodup ∧ (eaIdsOf p.subjects).Nodup) :
    ((walkList (runPairStep assign dtypes ro) pairs st).state).overwroteDifferent = false := by
  induction pairs generalizing st with
  | nil => exact hflag
  | cons p rest ih =>
    rw [walkList_cons]
    obtain ⟨h1, h2⟩ := hwf p (List.mem_cons_self p rest)
    have hstep := c3_runPairStep assign dtypes ro p st hflag h1 h2
    cases hp : runPairStep assign dtypes ro p st with
    | ok s1 =>
      rw [hp] at hstep
      rw [then_ok]
      exact ih s1 hstep fun q hq => hwf q (List.mem_cons_of_mem p hq)
    | err er s1 =>
      rw [hp] at hstep
      rw [then_err]
      exact hstep

/-- C3: write-once identifier map.  `update_id_map` is instrumented with the
`overwroteDifferent` flag, which latches as soon as any write replaces an
existing (kind, source-id) entry with a different destination value.  For
every coordinator run whose per-pair inputs have distinct subject ids and
distinct experiment-plus-assessor source ids (assessors share the experiment
partition), the flag is still clear at the end — on completed and on aborted
runs alike — so no execution overwrites an entry with a different value.
(Scan writes always store the scan's own id, so repeated scan ids rewrite
the same value.) -/
theorem c3_theorem (assign : DestAssign) (pairs : List PairInput) (dtypes : List String)
    (ro dm : Bool) (d : DestState)
    (hwf : ∀ p ∈ pairs, (subjIdsOf p.subjects).Nodup ∧ (eaIdsOf p.subjects).Nodup) :
    ((runMigration assign pairs dtypes ro dm (initMigState d)).state).overwroteDifferent
      = false := by
  unfold runMigration
  cases dm with
  | false => rfl
  | true =>
    simp only [if_true]
    have hwalk := c3_pairs assign dtypes ro pairs (initMigState d) rfl hwf
    cases hw : walkList (runPairStep assign dtypes ro) pairs (initMigState d) with
    | ok s =>
      rw [hw] at hwalk
      rw [then_ok, apply_sharing_flag]
      exact hwalk
    | err er s =>
      rw [hw] at hwalk
      rw [then_err]
      exact hwalk

def pairW : PairInput :=
  { source := srcInfoW, destination := dstInfoW, projXml := projXmlW,
    subjects := [subjC1] }

/-- C3 witness: the theorem evaluated on a one-pair run with distinct
resource ids. -/
theorem c3_witness :
    ((runMigration assignW [pairW] dtypesW false true
      (initMigState destW)).state).overwroteDifferent = false :=
  c3_theorem assignW [pairW] dtypesW false true destW (by decide)

end Xmigrate

namespace Xmigrate

/-! ## C2 groundwork: list lookup stability and benign records -/

theorem find?_append_of_some {α : Type} (l l' : List α) (p : α → Bool) (x : α)
    (h : l.find? p = some x) : (l ++ l').find? p = some x := by
  induction l with
  | nil => simp [List.find?] at h
  | cons a t ih =>
    rw [List.cons_append]
    rw [List.find?_cons] at h ⊢
    cases hp : p a with
    | true => rw [hp] at h; simpa [hp] using h
    | false => rw [hp] at h; simpa [hp] using ih h

theorem find?_append_of_none {α : Type} (l l' : List α) (p : α → Bool)
    (h : l.find? p = none) : (l ++ l').find? p = l'.find? p := by
  induction l with
  | nil => rfl
  | cons a t ih =>
    rw [List.cons_append]
    rw [List.find?_cons] at h ⊢
    cases hp : p a with
    | true => rw [hp] at h; cases h
    | false => rw [hp] at h; simpa [hp] using ih h

theorem find?_append_none {α : Type} (l l' : List α) (p : α → Bool)
    (h : l.find? p = none) (h' : l'.find? p = none) : (l ++ l').find? p = none := by
  rw [find?_append_of_none l l' p h]
  exact h'

theorem countSubjCreates_append (evs new : List Event) :
    countSubjCreates (evs ++ new) = countSubjCreates evs + countSubjCreates new := by
  unfold countSubjCreates
  rw [List.countP_append]

theorem countSubjCreates_single_nonsubj (ev : Event) (h : isSubjCreate ev = false) :
    countSubjCreates [ev] = 0 := by
  unfold countSubjCreates
  simp [List.countP_cons, h]

/-- Syntactically benign record: no identifier-reference children survive the
`preSteps` stage, and every URI child (directly, under `out`, under
`resources`) contains the source root — such a record transforms
successfully against any identifier map. -/
def noRemapChildB (c : Elem) : Bool := (alLookup tags_to_remap c.tag).isNone

def benignXmlB (source destination : ProjectInfo) (e : Elem) (ty : XnatType) : Bool :=
  let pe := preSteps destination e ty
  let sp := source.archive_path ++ "/" ++ source.id
  pe.children.all noRemapChildB &&
  (rewriteTaggedOkB sp (nsTag xnatNS "file") pe.children &&
   (rewriteNestedOkB sp (nsTag xnatNS "out") (nsTag xnatNS "file") pe.children &&
    rewriteNestedOkB sp (nsTag xnatNS "resources") (nsTag xnatNS "resource") pe.children))

theorem tags_to_remap_routed : ∀ p ∈ tags_to_remap, (idsToMap p.2).isSome = true := by
  decide

theorem remapAllOkB_of_noRemap (m : IdMap) (children : List Elem)
    (h : children.all noRemapChildB = true) :
    remapAllOkB m tags_to_remap children = true := by
  unfold remapAllOkB
  rw [List.all_eq_true]
  intro p hp
  have hrt := tags_to_remap_routed p hp
  cases hmid : idsToMap p.2 with
  | none =>
    rw [hmid] at hrt
    simp at hrt
  | some mid =>
    dsimp only
    rw [List.all_eq_true]
    intro c hc
    have hnc := List.all_eq_true.mp h c hc
    by_cases hct : c.tag = p.1
    · exfalso
      have hmem : (c.tag, p.2) ∈ tags_to_remap := by
        rw [hct, Prod.mk.eta]
        exact hp
      have hsome := alLookup_isSome_of_mem hmem
      unfold noRemapChildB at hnc
      rw [Option.isNone_iff_eq_none] at hnc
      rw [hnc] at hsome
      simp at hsome
    · simp [hct]

theorem mapXmlOkB_of_benign (source destination : ProjectInfo) (m : IdMap) (e : Elem)
    (ty : XnatType) (h : benignXmlB source destination e ty = true) :
    mapXmlOkB source destination m e ty = true := by
  unfold benignXmlB at h
  unfold mapXmlOkB
  dsimp only at h ⊢
  rw [Bool.and_eq_true, Bool.and_eq_true, Bool.and_eq_true] at h
  obtain ⟨h1, h2, h3, h4⟩ := h
  rw [remapAllOkB_of_noRemap m _ h1, h2, h3, h4]
  rfl

theorem map_xml_ok_of_benign (source destination : ProjectInfo) (m : IdMap) (e : Elem)
    (ty : XnatType) (h : benignXmlB source destination e ty = true) :
    ∃ r, map_xml source destination m e ty = .ok r := by
  rw [← isOkE_iff_exists, map_xml_isOk]
  exact mapXmlOkB_of_benign source destination m e ty h

end Xmigrate

namespace Xmigrate

theorem create_subject_shared_eq (ctx : Ctx) (s : SubjectRec) (st : MigState) (p : String)
    (hs : getAttr s.xml "project" = some p) (hps : p ≠ ctx.source.id) :
    create_subject ctx s st = .ok (withSubjSharing st
      (sharedAppend st.subjectSharing s.slbl s.slbl (defaultSubjSharing s.sid)
        ctx.destination.id s.sid)) := by
  unfold create_subject
  rw [hs]
  simp [hps, sharedAppend, withSubjSharing]

theorem create_experiment_shared_eq (ctx : Ctx) (s : SubjectRec) (e : ExperimentRec)
    (st : MigState) (q : String)
    (he : getAttr e.xml "project" = some q) (hpe : q ≠ ctx.source.id) :
    create_experiment ctx s e st = .ok (withExpSharing st
      (sharedAppend st.experimentSharing e.eid e.elbl defaultExpSharing
        ctx.destination.id e.eid)) := by
  unfold create_experiment
  rw [he]
  simp [hpe, sharedAppend, withExpSharing]

theorem create_assessor_shared_eq (ctx : Ctx) (s : SubjectRec) (e : ExperimentRec)
    (a : AssessorRec) (st : MigState) (r : String)
    (ha : getAttr a.xml "project" = some r) (hpa : r ≠ ctx.source.id) :
    create_assessor ctx s e a st = .ok (withAssessSharing st
      (sharedAppend st.assessorSharing a.aid a.albl defaultExpSharing
        ctx.destination.id a.aid)) := by
  unfold create_assessor
  rw [ha]
  simp [hpa, sharedAppend, withAssessSharing]

theorem create_scan_sharedExp_eq (ctx : Ctx) (s : SubjectRec) (e : ExperimentRec)
    (sc : ScanRec) (st : MigState) (q : String)
    (he : getAttr e.xml "project" = some q) (hqe : q ≠ ctx.source.id) :
    create_scan ctx s e sc st = .ok st := by
  unfold create_scan
  rw [he]
  simp [hqe]

end Xmigrate

namespace Xmigrate

theorem countSubjCreates_subjC (p l : String) :
    countSubjCreates [Event.created (CreateCall.subjectC p l)] = 1 := rfl

theorem create_subject_benign_owner (ctx : Ctx) (s : SubjectRec) (st : MigState)
    (hown : getAttr s.xml "project" = some ctx.source.id)
    (hben : benignXmlB ctx.source ctx.destination s.xml .subject = true)
    (hp : ctx.destination.id ∈ st.dest.projects) :
    ∃ st', create_subject ctx s st = .ok st' ∧
      st'.dest.projects = st.dest.projects ∧
      (∃ suf, st'.dest.subjects = st.dest.subjects ++ suf ∧
        ∀ x ∈ suf, x.slabel = s.slbl) ∧
      st'.dest.experiments = st.dest.experiments ∧
      st'.subjFailed = st.subjFailed + (if s.lagged then 1 else 0) ∧
      st'.expFailed = st.expFailed ∧
      countSubjCreates st'.events = countSubjCreates st.events +
        (if (destSubjFind st.dest ctx.destination.id s.slbl).isNone then 1 else 0) ∧
      (destSubjFind st'.dest ctx.destination.id s.slbl).isSome = true := by
  obtain ⟨r, hr⟩ := map_xml_ok_of_benign ctx.source ctx.destination st.idMap s.xml
    .subject hben
  unfold create_subject
  rw [hown]
  dsimp only
  rw [if_neg (fun h : ctx.source.id ≠ ctx.source.id => h rfl), hr]
  dsimp only
  rw [if_pos hp]
  by_cases habs : (destSubjFind st.dest ctx.destination.id s.slbl).isNone = true
  · rw [if_pos habs]
    have hfind : destSubjFind
        { st.dest with subjects := st.dest.subjects ++
          [⟨ctx.destination.id, s.slbl, ctx.assign.assignSubj s.slbl⟩] }
        ctx.destination.id s.slbl
        = some ⟨ctx.destination.id, s.slbl, ctx.assign.assignSubj s.slbl⟩ := by
      unfold destSubjFind
      dsimp only
      rw [Option.isNone_iff_eq_none] at habs
      rw [find?_append_of_none _ _ _ habs]
      simp [List.find?]
    by_cases hlag : s.lagged = true
    · rw [hlag]
      dsimp only
      refine ⟨_, rfl, rfl, ⟨[⟨ctx.destination.id, s.slbl, ctx.assign.assignSubj s.slbl⟩],
        rfl, by simp⟩, rfl, ?_, rfl, ?_, ?_⟩
      · simp [hlag]
      · rw [countSubjCreates_append, countSubjCreates_subjC, habs]
        simp
      · rw [hfind]
        rfl
    · have hlag' : s.lagged = false := by
        cases hsl : s.lagged
        · rfl
        · exact absurd hsl hlag
      rw [hlag']
      dsimp only
      rw [hfind]
      simp only [updateIdMapSt, idsToMap]
      refine ⟨_, rfl, rfl, ⟨[⟨ctx.destination.id, s.slbl, ctx.assign.assignSubj s.slbl⟩],
        rfl, by simp⟩, rfl, ?_, rfl, ?_, ?_⟩
      · simp [hlag']
      · rw [countSubjCreates_append, countSubjCreates_subjC, habs]
        simp
      · rw [hfind]
        rfl
  · rw [if_neg habs]
    have hsome : (destSubjFind st.dest ctx.destination.id s.slbl).isSome = true := by
      cases hF : destSubjFind st.dest ctx.destination.id s.slbl with
      | none => exact absurd (by rw [hF]; rfl) habs
      | some entry => rfl
    obtain ⟨entry, hentry⟩ := Option.isSome_iff_exists.mp hsome
    have habs' : (destSubjFind st.dest ctx.destination.id s.slbl).isNone = false := by
      rw [hentry]
      rfl
    by_cases hlag : s.lagged = true
    · rw [hlag]
      dsimp only
      refine ⟨_, rfl, rfl, ⟨[], by simp, by simp⟩, rfl, ?_, rfl, ?_, ?_⟩
      · simp [hlag]
      · rw [habs']
        simp
      · exact hsome
    · have hlag' : s.lagged = false := by
        cases hsl : s.lagged
        · rfl
        · exact absurd hsl hlag
      rw [hlag']
      dsimp only
      rw [hentry]
      simp only [updateIdMapSt, idsToMap]
      refine ⟨_, rfl, rfl, ⟨[], by simp, by simp⟩, rfl, ?_, rfl, ?_, ?_⟩
      · simp [hlag']
      · simp
      · simp [hentry]

end Xmigrate

namespace Xmigrate

theorem countSubjCreates_expC (p l el : String) :
    countSubjCreates [Event.created (CreateCall.experimentC p l el)] = 0 := rfl

theorem countSubjCreates_scanC (p l el sid : String) :
    countSubjCreates [Event.created (CreateCall.scanC p l el sid)] = 0 := rfl

theorem countSubjCreates_assC (p l el al : String) :
    countSubjCreates [Event.created (CreateCall.assessorC p l el al)] = 0 := rfl

theorem create_experiment_benign_owner (ctx : Ctx) (s : SubjectRec) (e : ExperimentRec)
    (st : MigState) (sentry : DSubj)
    (hown : getAttr e.xml "project" = some ctx.source.id)
    (hben : benignXmlB ctx.source ctx.destination e.xml .experiment = true)
    (hp : ctx.destination.id ∈ st.dest.projects)
    (hsub : destSubjFind st.dest ctx.destination.id s.slbl = some sentry)
    (hlag : e.lagged1 = true → e.lagged2 = false) :
    ∃ st', create_experiment ctx s e st = .ok st' ∧
      st'.dest.projects = st.dest.projects ∧
      st'.dest.subjects = st.dest.subjects ∧
      (∃ suf, st'.dest.experiments = st.dest.experiments ++ suf) ∧
      st'.subjFailed = st.subjFailed ∧
      st'.expFailed = st.expFailed + (if e.lagged1 then 1 else 0) ∧
      countSubjCreates st'.events = countSubjCreates st.events ∧
      (destExpFind st'.dest ctx.destination.id s.slbl e.elbl).isSome = true := by
  obtain ⟨r, hr⟩ := map_xml_ok_of_benign ctx.source ctx.destination st.idMap e.xml
    .experiment hben
  unfold create_experiment
  rw [hown]
  dsimp only
  rw [if_neg (fun h : ctx.source.id ≠ ctx.source.id => h rfl), hr]
  dsimp only
  rw [if_pos hp, hsub]
  dsimp only
  by_cases habs : (destExpFind st.dest ctx.destination.id s.slbl e.elbl).isNone = true
  · rw [if_pos habs]
    have hfindE : destExpFind
        { st.dest with experiments := st.dest.experiments ++
          [⟨ctx.destination.id, s.slbl, e.elbl, ctx.assign.assignExp e.elbl⟩] }
        ctx.destination.id s.slbl e.elbl
        = some ⟨ctx.destination.id, s.slbl, e.elbl, ctx.assign.assignExp e.elbl⟩ := by
      unfold destExpFind
      dsimp only
      rw [Option.isNone_iff_eq_none] at habs
      rw [find?_append_of_none _ _ _ habs]
      simp [List.find?]
    by_cases hl1 : e.lagged1 = true
    · have hl2 : e.lagged2 = false := hlag hl1
      rw [hl1]
      dsimp only
      rw [hl2]
      rw [hfindE]
      simp only [updateIdMapSt, idsToMap]
      refine ⟨_, rfl, rfl, rfl, ⟨[⟨ctx.destination.id, s.slbl, e.elbl,
        ctx.assign.assignExp e.elbl⟩], rfl⟩, rfl, ?_, ?_, ?_⟩
      · simp
      · simp [countSubjCreates_append, countSubjCreates_expC]
      · simp [hfindE]
    · have hl1' : e.lagged1 = false := by
        cases hx : e.lagged1
        · rfl
        · exact absurd hx hl1
      rw [hl1']
      dsimp only
      rw [hfindE]
      simp only [updateIdMapSt, idsToMap]
      refine ⟨_, rfl, rfl, rfl, ⟨[⟨ctx.destination.id, s.slbl, e.elbl,
        ctx.assign.assignExp e.elbl⟩], rfl⟩, rfl, ?_, ?_, ?_⟩
      · simp
      · simp [countSubjCreates_append, countSubjCreates_expC]
      · simp [hfindE]
  · rw [if_neg habs]
    have hsomeE : (destExpFind st.dest ctx.destination.id s.slbl e.elbl).isSome = true := by
      cases hF : destExpFind st.dest ctx.destination.id s.slbl e.elbl with
      | none => exact absurd (by rw [hF]; rfl) habs
      | some entry => rfl
    obtain ⟨entry, hentryE⟩ := Option.isSome_iff_exists.mp hsomeE
    by_cases hl1 : e.lagged1 = true
    · have hl2 : e.lagged2 = false := hlag hl1
      rw [hl1]
      dsimp only
      rw [hl2]
      rw [hentryE]
      simp only [updateIdMapSt, idsToMap]
      refine ⟨_, rfl, rfl, rfl, ⟨[], by simp⟩, rfl, ?_, ?_, ?_⟩
      · simp
      · rfl
      · simp [hentryE]
    · have hl1' : e.lagged1 = false := by
        cases hx : e.lagged1
        · rfl
        · exact absurd hx hl1
      rw [hl1']
      dsimp only
      rw [hentryE]
      simp only [updateIdMapSt, idsToMap]
      refine ⟨_, rfl, rfl, rfl, ⟨[], by simp⟩, rfl, ?_, ?_, ?_⟩
      · simp
      · rfl
      · simp [hentryE]

end Xmigrate

namespace Xmigrate

theorem destSubjFind_congr (d d' : DestState) (p l : String)
    (h : d'.subjects = d.subjects) : destSubjFind d' p l = destSubjFind d p l := by
  unfold destSubjFind
  rw [h]

theorem destExpFind_congr (d d' : DestState) (p sl el : String)
    (h : d'.experiments = d.experiments) :
    destExpFind d' p sl el = destExpFind d p sl el := by
  unfold destExpFind
  rw [h]

theorem create_scan_benign (ctx : Ctx) (s : SubjectRec) (e : ExperimentRec) (sc : ScanRec)
    (st : MigState) (sentry : DSubj) (eentry : DExp)
    (howne : getAttr e.xml "project" = some ctx.source.id)
    (hben : benignXmlB ctx.source ctx.destination sc.xml .scan = true)
    (hp : ctx.destination.id ∈ st.dest.projects)
    (hsub : destSubjFind st.dest ctx.destination.id s.slbl = some sentry)
    (hexp : destExpFind st.dest ctx.destination.id s.slbl e.elbl = some eentry) :
    ∃ st', create_scan ctx s e sc st = .ok st' ∧
      st'.dest.projects = st.dest.projects ∧
      st'.dest.subjects = st.dest.subjects ∧
      st'.dest.experiments = st.dest.experiments ∧
      st'.subjFailed = st.subjFailed ∧
      st'.expFailed = st.expFailed ∧
      countSubjCreates st'.events = countSubjCreates st.events := by
  obtain ⟨r, hr⟩ := map_xml_ok_of_benign ctx.source ctx.destination st.idMap sc.xml
    .scan hben
  unfold create_scan
  rw [howne]
  dsimp only
  rw [if_neg (fun h : ctx.source.id ≠ ctx.source.id => h rfl), hr]
  dsimp only
  rw [if_pos hp, hsub]
  dsimp only
  rw [hexp]
  dsimp only
  by_cases habs : (destScanFind st.dest ctx.destination.id s.slbl e.elbl sc.sid).isNone = true
  · rw [if_pos habs]
    simp only [updateIdMapSt, idsToMap]
    refine ⟨_, rfl, rfl, rfl, rfl, rfl, rfl, ?_⟩
    simp [countSubjCreates_append, countSubjCreates_scanC]
  · rw [if_neg habs]
    simp only [updateIdMapSt, idsToMap]
    exact ⟨_, rfl, rfl, rfl, rfl, rfl, rfl, rfl⟩

theorem create_assessor_benign_owner (ctx : Ctx) (s : SubjectRec) (e : ExperimentRec)
    (a : AssessorRec) (st : MigState) (sentry : DSubj) (eentry : DExp)
    (howna : getAttr a.xml "project" = some ctx.source.id)
    (hben : benignXmlB ctx.source ctx.destination a.xml .assessor = true)
    (hp : ctx.destination.id ∈ st.dest.projects)
    (hsub : destSubjFind st.dest ctx.destination.id s.slbl = some sentry)
    (hexp : destExpFind st.dest ctx.destination.id s.slbl e.elbl = some eentry)
    (hlag : a.lagged1 = true → a.lagged2 = false) :
    ∃ st', create_assessor ctx s e a st = .ok st' ∧
      st'.dest.projects = st.dest.projects ∧
      st'.dest.subjects = st.dest.subjects ∧
      st'.dest.experiments = st.dest.experiments ∧
      st'.subjFailed = st.subjFailed ∧
      st'.expFailed = st.expFailed ∧
      countSubjCreates st'.events = countSubjCreates st.events := by
  obtain ⟨r, hr⟩ := map_xml_ok_of_benign ctx.source ctx.destination st.idMap a.xml
    .assessor hben
  unfold create_assessor
  rw [howna]
  dsimp only
  rw [if_neg (fun h : ctx.source.id ≠ ctx.source.id => h rfl), hr]
  dsimp only
  rw [if_pos hp, hsub]
  dsimp only
  rw [hexp]
  dsimp only
  by_cases habs :
      (destAssessFind st.dest ctx.destination.id s.slbl e.elbl a.albl).isNone = true
  · rw [if_pos habs]
    have hfindA : destAssessFind
        { st.dest with assessors := st.dest.assessors ++
          [⟨ctx.destination.id, s.slbl, e.elbl, a.albl, ctx.assign.assignAssess a.albl⟩] }
        ctx.destination.id s.slbl e.elbl a.albl
        = some ⟨ctx.destination.id, s.slbl, e.elbl, a.albl,
            ctx.assign.assignAssess a.albl⟩ := by
      unfold destAssessFind
      dsimp only
      rw [Option.isNone_iff_eq_none] at habs
      rw [find?_append_of_none _ _ _ habs]
      simp [List.find?]
    by_cases hl1 : a.lagged1 = true
    · have hl2 : a.lagged2 = false := hlag hl1
      rw [hl1]
      dsimp only
      rw [hl2]
      rw [hfindA]
      simp only [updateIdMapSt, idsToMap]
      refine ⟨_, rfl, rfl, rfl, rfl, rfl, rfl, ?_⟩
      simp [countSubjCreates_append, countSubjCreates_assC]
    · have hl1' : a.lagged1 = false := by
        cases hx : a.lagged1
        · rfl
        · exact absurd hx hl1
      rw [hl1']
      dsimp only
      rw [hfindA]
      simp only [updateIdMapSt, idsToMap]
      refine ⟨_, rfl, rfl, rfl, rfl, rfl, rfl, ?_⟩
      simp [countSubjCreates_append, countSubjCreates_assC]
  · rw [if_neg habs]
    have hsomeA :
        (destAssessFind st.dest ctx.destination.id s.slbl e.elbl a.albl).isSome = true := by
      cases hF : destAssessFind st.dest ctx.destination.id s.slbl e.elbl a.albl with
      | none => exact absurd (by rw [hF]; rfl) habs
      | some entry => rfl
    obtain ⟨entry, hentryA⟩ := Option.isSome_iff_exists.mp hsomeA
    by_cases hl1 : a.lagged1 = true
    · have hl2 : a.lagged2 = false := hlag hl1
      rw [hl1]
      dsimp only
      rw [hl2]
      rw [hentryA]
      simp only [updateIdMapSt, idsToMap]
      exact ⟨_, rfl, rfl, rfl, rfl, rfl, rfl, rfl⟩
    · have hl1' : a.lagged1 = false := by
        cases hx : a.lagged1
        · rfl
        · exact absurd hx hl1
      rw [hl1']
      dsimp only
      rw [hentryA]
      simp only [updateIdMapSt, idsToMap]
      exact ⟨_, rfl, rfl, rfl, rfl, rfl, rfl, rfl⟩

theorem create_project_benign (ctx : Ctx) (projXml : Elem) (st : MigState)
    (hben : benignXmlB ctx.source ctx.destination projXml .project = true)
    (hp : ctx.destination.id ∈ st.dest.projects) :
    ∃ st', create_project ctx projXml st = .ok st' ∧
      st'.dest = st.dest ∧
      st'.subjFailed = st.subjFailed ∧
      st'.expFailed = st.expFailed ∧
      countSubjCreates st'.events = countSubjCreates st.events := by
  obtain ⟨r, hr⟩ := map_xml_ok_of_benign ctx.source ctx.destination st.idMap projXml
    .project hben
  unfold create_project
  rw [hr]
  dsimp only
  rw [if_pos hp]
  simp only [updateIdMapSt, idsToMap]
  exact ⟨_, rfl, rfl, rfl, rfl, rfl⟩

end Xmigrate

namespace Xmigrate

/-! ## C2: behaviour of the walker under per-resource listing failures

`scanOkB`/`assessOkB`/`expOkB`/`subjOkB` describe records owned by the
source project whose XML transforms successfully against any identifier
map, whose declared types are advertised, and whose only failures are
destination-listing misses (`lagged` oracles), with at most one consecutive
miss per experiment/assessor (the retried read succeeds). -/

def scanOkB (src dst : ProjectInfo) (sc : ScanRec) : Bool :=
  benignXmlB src dst sc.xml .scan

def assessOkB (ctx : Ctx) (a : AssessorRec) : Bool :=
  decide (getAttr a.xml "project" = some ctx.source.id) &&
  benignXmlB ctx.source ctx.destination a.xml .assessor &&
  !(a.lagged1 && a.lagged2)

def expOkB (ctx : Ctx) (dtypes : List String) (e : ExperimentRec) : Bool :=
  decide (getAttr e.xml "project" = some ctx.source.id) &&
  benignXmlB ctx.source ctx.destination e.xml .experiment &&
  decide (e.xsiType ∈ dtypes) &&
  !(e.lagged1 && e.lagged2) &&
  e.scans.all (scanOkB ctx.source ctx.destination) &&
  e.assessors.all (assessOkB ctx)

def subjOkB (ctx : Ctx) (dtypes : List String) (s : SubjectRec) : Bool :=
  decide (getAttr s.xml "project" = some ctx.source.id) &&
  benignXmlB ctx.source ctx.destination s.xml .subject &&
  s.experiments.all (expOkB ctx dtypes)

theorem lag_of_not_both {b1 b2 : Bool} (h : (!(b1 && b2)) = true) :
    b1 = true → b2 = false := by
  intro h1
  cases h2 : b2
  · rfl
  · rw [h1, h2] at h
    simp at h

theorem c2_scans (ctx : Ctx) (s : SubjectRec) (e : ExperimentRec) (scans : List ScanRec)
    (sentry : DSubj) (eentry : DExp)
    (howne : getAttr e.xml "project" = some ctx.source.id) :
    ∀ st : MigState, scans.all (scanOkB ctx.source ctx.destination) = true →
    ctx.destination.id ∈ st.dest.projects →
    destSubjFind st.dest ctx.destination.id s.slbl = some sentry →
    destExpFind st.dest ctx.destination.id s.slbl e.elbl = some eentry →
    ∃ st', walkList (create_scan ctx s e) scans st = .ok st' ∧
      st'.dest.projects = st.dest.projects ∧
      st'.dest.subjects = st.dest.subjects ∧
      st'.dest.experiments = st.dest.experiments ∧
      st'.subjFailed = st.subjFailed ∧
      st'.expFailed = st.expFailed ∧
      countSubjCreates st'.events = countSubjCreates st.events := by
  induction scans with
  | nil =>
    intro st _ _ _ _
    exact ⟨st, rfl, rfl, rfl, rfl, rfl, rfl, rfl⟩
  | cons sc rest ih =>
    intro st hall hp hsub hexp
    rw [List.all_cons, Bool.and_eq_true] at hall
    obtain ⟨hsc, hrest⟩ := hall
    obtain ⟨st1, hok, hpj, hsj, hej, hsf, hef, hcs⟩ :=
      create_scan_benign ctx s e sc st sentry eentry howne hsc hp hsub hexp
    obtain ⟨st2, hok2, hpj2, hsj2, hej2, hsf2, hef2, hcs2⟩ :=
      ih st1 hrest (by rw [hpj]; exact hp)
        (by rw [destSubjFind_congr _ _ _ _ hsj]; exact hsub)
        (by rw [destExpFind_congr _ _ _ _ _ hej]; exact hexp)
    refine ⟨st2, ?_, ?_, ?_, ?_, ?_, ?_, ?_⟩
    · rw [walkList_cons, hok, then_ok, hok2]
    · rw [hpj2, hpj]
    · rw [hsj2, hsj]
    · rw [hej2, hej]
    · rw [hsf2, hsf]
    · rw [hef2, hef]
    · rw [hcs2, hcs]

theorem c2_assessors (ctx : Ctx) (s : SubjectRec) (e : ExperimentRec)
    (assessors : List AssessorRec) (sentry : DSubj) (eentry : DExp) :
    ∀ st : MigState, assessors.all (assessOkB ctx) = true →
    ctx.destination.id ∈ st.dest.projects →
    destSubjFind st.dest ctx.destination.id s.slbl = some sentry →
    destExpFind st.dest ctx.destination.id s.slbl e.elbl = some eentry →
    ∃ st', walkList (create_assessor ctx s e) assessors st = .ok st' ∧
      st'.dest.projects = st.dest.projects ∧
      st'.dest.subjects = st.dest.subjects ∧
      st'.dest.experiments = st.dest.experiments ∧
      st'.subjFailed = st.subjFailed ∧
      st'.expFailed = st.expFailed ∧
      countSubjCreates st'.events = countSubjCreates st.events := by
  induction assessors with
  | nil =>
    intro st _ _ _ _
    exact ⟨st, rfl, rfl, rfl, rfl, rfl, rfl, rfl⟩
  | cons a rest ih =>
    intro st hall hp hsub hexp
    rw [List.all_cons, Bool.and_eq_true] at hall
    obtain ⟨ha, hrest⟩ := hall
    unfold assessOkB at ha
    simp only [Bool.and_eq_true, decide_eq_true_eq] at ha
    obtain ⟨⟨howna, hben⟩, hnl⟩ := ha
    obtain ⟨st1, hok, hpj, hsj, hej, hsf, hef, hcs⟩ :=
      create_assessor_benign_owner ctx s e a st sentry eentry howna hben hp hsub hexp
        (lag_of_not_both hnl)
    obtain ⟨st2, hok2, hpj2, hsj2, hej2, hsf2, hef2, hcs2⟩ :=
      ih st1 hrest (by rw [hpj]; exact hp)
        (by rw [destSubjFind_congr _ _ _ _ hsj]; exact hsub)
        (by rw [destExpFind_congr _ _ _ _ _ hej]; exact hexp)
    refine ⟨st2, ?_, ?_, ?_, ?_, ?_, ?_, ?_⟩
    · rw [walkList_cons, hok, then_ok, hok2]
    · rw [hpj2, hpj]
    · rw [hsj2, hsj]
    · rw [hej2, hej]
    · rw [hsf2, hsf]
    · rw [hef2, hef]
    · rw [hcs2, hcs]

end Xmigrate

namespace Xmigrate

theorem c2_processExperiment (ctx : Ctx) (dtypes : List String) (s : SubjectRec)
    (e : ExperimentRec) (st : MigState) (sentry : DSubj)
    (he : expOkB ctx dtypes e = true)
    (hp : ctx.destination.id ∈ st.dest.projects)
    (hsub : destSubjFind st.dest ctx.destination.id s.slbl = some sentry) :
    ∃ st', processExperiment ctx dtypes s e st = .ok st' ∧
      st'.dest.projects = st.dest.projects ∧
      st'.dest.subjects = st.dest.subjects ∧
      st'.subjFailed = st.subjFailed ∧
      st'.expFailed = st.expFailed + (if e.lagged1 then 1 else 0) ∧
      countSubjCreates st'.events = countSubjCreates st.events := by
  unfold expOkB at he
  simp only [Bool.and_eq_true, decide_eq_true_eq] at he
  obtain ⟨⟨⟨⟨⟨howne, hben⟩, hdt⟩, hnl⟩, hscans⟩, hass⟩ := he
  obtain ⟨st1, hokE, hpj1, hsj1, hejsuf, hsf1, hef1, hcs1, hexp1⟩ :=
    create_experiment_benign_owner ctx s e st sentry howne hben hp hsub
      (lag_of_not_both hnl)
  obtain ⟨eentry, heentry⟩ := Option.isSome_iff_exists.mp hexp1
  have hp1 : ctx.destination.id ∈ st1.dest.projects := by rw [hpj1]; exact hp
  have hsub1 : destSubjFind st1.dest ctx.destination.id s.slbl = some sentry := by
    rw [destSubjFind_congr _ _ _ _ hsj1]; exact hsub
  obtain ⟨st2, hokS, hpj2, hsj2, hej2, hsf2, hef2, hcs2⟩ :=
    c2_scans ctx s e e.scans sentry eentry howne st1 hscans hp1 hsub1 heentry
  obtain ⟨st3, hokA, hpj3, hsj3, hej3, hsf3, hef3, hcs3⟩ :=
    c2_assessors ctx s e e.assessors sentry eentry st2 hass
      (by rw [hpj2]; exact hp1)
      (by rw [destSubjFind_congr _ _ _ _ hsj2]; exact hsub1)
      (by rw [destExpFind_congr _ _ _ _ _ hej2]; exact heentry)
  refine ⟨st3, ?_, ?_, ?_, ?_, ?_, ?_⟩
  · unfold processExperiment
    rw [if_neg (fun hq => hq hdt), hokE, then_ok, hokS, then_ok, hokA]
  · rw [hpj3, hpj2, hpj1]
  · rw [hsj3, hsj2, hsj1]
  · rw [hsf3, hsf2, hsf1]
  · rw [hef3, hef2, hef1]
  · rw [hcs3, hcs2, hcs1]

theorem c2_exps (ctx : Ctx) (dtypes : List String) (s : SubjectRec)
    (exps : List ExperimentRec) (sentry : DSubj) :
    ∀ st : MigState, exps.all (expOkB ctx dtypes) = true →
    ctx.destination.id ∈ st.dest.projects →
    destSubjFind st.dest ctx.destination.id s.slbl = some sentry →
    ∃ st', walkList (processExperiment ctx dtypes s) exps st = .ok st' ∧
      st'.dest.projects = st.dest.projects ∧
      st'.subjFailed = st.subjFailed ∧
      st'.expFailed = st.expFailed + exps.countP (fun e => e.lagged1) ∧
      countSubjCreates st'.events = countSubjCreates st.events := by
  induction exps with
  | nil =>
    intro st _ _ _
    exact ⟨st, rfl, rfl, rfl, by simp [List.countP_nil], rfl⟩
  | cons e rest ih =>
    intro st hall hp hsub
    rw [List.all_cons, Bool.and_eq_true] at hall
    obtain ⟨he, hrest⟩ := hall
    obtain ⟨st1, hok, hpj1, hsj1, hsf1, hef1, hcs1⟩ :=
      c2_processExperiment ctx dtypes s e st sentry he hp hsub
    obtain ⟨st2, hok2, hpj2, hsf2, hef2, hcs2⟩ :=
      ih st1 hrest (by rw [hpj1]; exact hp)
        (by rw [destSubjFind_congr _ _ _ _ hsj1]; exact hsub)
    refine ⟨st2, ?_, ?_, ?_, ?_, ?_⟩
    · rw [walkList_cons, hok, then_ok, hok2]
    · rw [hpj2, hpj1]
    · rw [hsf2, hsf1]
    · rw [hef2, hef1, List.countP_cons]
      cases e.lagged1 <;> simp <;> omega
    · rw [hcs2, hcs1]

theorem c2_processSubject (ctx : Ctx) (dtypes : List String) (s : SubjectRec)
    (st : MigState)
    (hs : subjOkB ctx dtypes s = true)
    (hp : ctx.destination.id ∈ st.dest.projects) :
    ∃ st', processSubject ctx dtypes s st = .ok st' ∧
      st'.dest.projects = st.dest.projects ∧
      st'.subjFailed = st.subjFailed + (if s.lagged then 1 else 0) ∧
      st'.expFailed = st.expFailed + s.experiments.countP (fun e => e.lagged1) := by
  unfold subjOkB at hs
  simp only [Bool.and_eq_true, decide_eq_true_eq] at hs
  obtain ⟨⟨hown, hben⟩, hexps⟩ := hs
  obtain ⟨st1, hokS, hpj1, _, _, hsf1, hef1, _, hfind1⟩ :=
    create_subject_benign_owner ctx s st hown hben hp
  obtain ⟨sentry, hsentry⟩ := Option.isSome_iff_exists.mp hfind1
  obtain ⟨st2, hok2, hpj2, hsf2, hef2, _⟩ :=
    c2_exps ctx dtypes s s.experiments sentry st1 hexps (by rw [hpj1]; exact hp) hsentry
  refine ⟨st2, ?_, ?_, ?_, ?_⟩
  · unfold processSubject
    rw [hokS, then_ok, hok2]
  · rw [hpj2, hpj1]
  · rw [hsf2, hsf1]
  · rw [hef2, hef1]

theorem c2_subjects (ctx : Ctx) (dtypes : List String) (subjects : List SubjectRec) :
    ∀ st : MigState, subjects.all (subjOkB ctx dtypes) = true →
    ctx.destination.id ∈ st.dest.projects →
    ∃ st', walkList (processSubject ctx dtypes) subjects st = .ok st' ∧
      st'.dest.projects = st.dest.projects ∧
      st'.subjFailed = st.subjFailed + subjects.countP (fun s => s.lagged) ∧
      st'.expFailed = st.expFailed +
        (subjects.map (fun s => s.experiments.countP (fun e => e.lagged1))).sum := by
  induction subjects with
  | nil =>
    intro st _ _
    exact ⟨st, rfl, rfl, by simp [List.countP_nil], by simp⟩
  | cons s rest ih =>
    intro st hall hp
    rw [List.all_cons, Bool.and_eq_true] at hall
    obtain ⟨hs, hrest⟩ := hall
    obtain ⟨st1, hok, hpj1, hsf1, hef1⟩ := c2_processSubject ctx dtypes s st hs hp
    obtain ⟨st2, hok2, hpj2, hsf2, hef2⟩ := ih st1 hrest (by rw [hpj1]; exact hp)
    refine ⟨st2, ?_, ?_, ?_, ?_⟩
    · rw [walkList_cons, hok, then_ok, hok2]
    · rw [hpj2, hpj1]
    · rw [hsf2, hsf1, List.countP_cons]
      cases s.lagged <;> simp <;> omega
    · rw [hef2, hef1, List.map_cons, List.sum_cons]
      omega

end Xmigrate

namespace Xmigrate

/-! ### C2 fixtures -/

def c2st0 : MigState := initMigState { destW with projects := ["B"] }

def fileBadW : Elem := Elem.mk (nsTag xnatNS "file") [("URI", "/other/path")] none []

def scanBadW : ScanRec :=
  { sid := "SC9", xml := Elem.mk "scanrec" [("project", "A"), ("ID", "SC9")] none [fileBadW] }

def expWithBadScanW : ExperimentRec :=
  { eid := "E9", elbl := "E9L", xsiType := "xnat:mrSessionData", xml := ownXml "E9",
    lagged1 := false, lagged2 := false, scans := [scanBadW], assessors := [] }

def subjBadW : SubjectRec :=
  { sid := "S8", slbl := "S8L", xml := ownXml "S8", lagged := false,
    experiments := [expWithBadScanW] }

def subjGoodW : SubjectRec :=
  { sid := "S7", slbl := "S7L", xml := ownXml "S7", lagged := false, experiments := [] }

def scanOkW : ScanRec :=
  { sid := "SC1", xml := Elem.mk "scanrec" [("project", "A"), ("ID", "SC1")] none [] }

def assLagW : AssessorRec :=
  { aid := "A5", albl := "A5L", xml := ownXml "A5", lagged1 := true, lagged2 := false }

def expLagW : ExperimentRec :=
  { eid := "E5", elbl := "E5L", xsiType := "xnat:mrSessionData", xml := ownXml "E5",
    lagged1 := true, lagged2 := false, scans := [scanOkW], assessors := [assLagW] }

def subjLagW : SubjectRec :=
  { sid := "S5", slbl := "S5L", xml := ownXml "S5", lagged := true,
    experiments := [expLagW] }

/-- C2 counterexample: a scan whose file-path field does not contain the
expected source root.  The claim says the fatal rewrite error is counted,
recorded and does not prevent sibling resources from being processed.  In
the code the `ValueError` escapes `_create_scan` uncaught: the whole walk
aborts, the sibling subject is never created (exactly one subject-create
event, for the first subject), and the scan failure counter stays zero —
nothing is recorded. -/
theorem c2_counterexample :
    (walkList (processSubject ctxW dtypesW) [subjBadW, subjGoodW] c2st0).isOk = false ∧
    countSubjCreates
      (walkList (processSubject ctxW dtypesW) [subjBadW, subjGoodW] c2st0).state.events
      = 1 ∧
    (walkList (processSubject ctxW dtypesW) [subjBadW, subjGoodW] c2st0).state.scanFailed
      = 0 := by
  decide

end Xmigrate

namespace Xmigrate

/-- C2 (amended): only the destination-listing miss after creation (the
`KeyError`/`AttributeError` caught around the identifier-map update) is a
resource-local failure: it increments the per-kind failure counter and
processing continues with the remaining resources.  For every run of
`_create_resources` over source-owned, well-formed records whose only
failures are such listing misses, the walk completes successfully, the
subject failure counter grows by exactly the number of lagged subjects and
the experiment failure counter by the number of first-read-lagged
experiments — each failed resource's siblings, and all remaining subjects,
are still processed.  (A fatal file-path rewrite error for a scan, by
contrast, aborts the walk — see the counterexample — and no `FailureRecord`
exists, only counters.) -/
theorem c2_theorem (ctx : Ctx) (projXml : Elem) (subjects : List SubjectRec)
    (dtypes : List String) (st : MigState)
    (hproj : benignXmlB ctx.source ctx.destination projXml .project = true)
    (hall : subjects.all (subjOkB ctx dtypes) = true)
    (hp : ctx.destination.id ∈ st.dest.projects) :
    ∃ st', create_resources ctx projXml subjects dtypes false st = .ok st' ∧
      st'.subjFailed = st.subjFailed + subjects.countP (fun s => s.lagged) ∧
      st'.expFailed = st.expFailed +
        (subjects.map (fun s => s.experiments.countP (fun e => e.lagged1))).sum := by
  obtain ⟨st1, hokP, hdest1, hsf1, hef1, _⟩ := create_project_benign ctx projXml st hproj hp
  obtain ⟨st2, hok2, _, hsf2, hef2⟩ :=
    c2_subjects ctx dtypes subjects st1 hall (by rw [hdest1]; exact hp)
  refine ⟨st2, ?_, ?_, ?_⟩
  · unfold create_resources
    rw [hokP, then_ok]
    exact hok2
  · rw [hsf2, hsf1]
  · rw [hef2, hef1]

/-- C2 witness: a lagged subject holding one first-read-lagged experiment
(with a scan and a first-read-lagged assessor), followed by a sibling
subject: the walk completes, the sibling is processed, and the counters
grow by exactly one each. -/
theorem c2_witness :
    ∃ st', create_resources ctxW projXmlW [subjLagW, subjGoodW] dtypesW false c2st0
        = .ok st' ∧
      st'.subjFailed = c2st0.subjFailed + [subjLagW, subjGoodW].countP (fun s => s.lagged) ∧
      st'.expFailed = c2st0.expFailed +
        ([subjLagW, subjGoodW].map
          (fun s => s.experiments.countP (fun e => e.lagged1))).sum :=
  c2_theorem ctxW projXmlW [subjLagW, subjGoodW] dtypesW c2st0 (by decide) (by decide)
    (by decide)

end Xmigrate

namespace Xmigrate

/-! ## C8: the second run against an already-populated destination

A state is *second-run ready* for a record when the record already exists
on the destination (by identifier for projects and scans, by label for
subjects, experiments and assessors), the identifier map already holds the
found entry's identifier for the record's source identifier, the record is
source-owned with well-formed XML, and its listing reads do not lag. -/

theorem idMap_write_self (m : IdMap) (t : XnatType) (k v : String)
    (h : alLookup (idMapGet m t) k = some v) :
    idMapSet m t (alInsert (idMapGet m t) k v) = m := by
  cases hm : alLookup m t with
  | none =>
    exfalso
    unfold idMapGet at h
    rw [hm] at h
    simp [alLookup] at h
  | some part =>
    have hg : idMapGet m t = part := by
      unfold idMapGet
      rw [hm]
      rfl
    rw [hg] at h ⊢
    rw [alInsert_self part k v h]
    exact alInsert_self m t part hm

def scanSecondB (ctx : Ctx) (d : DestState) (m : IdMap) (slbl elbl : String)
    (sc : ScanRec) : Bool :=
  benignXmlB ctx.source ctx.destination sc.xml .scan &&
  (destScanFind d ctx.destination.id slbl elbl sc.sid).isSome &&
  (alLookup (idMapGet m .scan) sc.sid == some sc.sid)

def assSecondB (ctx : Ctx) (d : DestState) (m : IdMap) (slbl elbl : String)
    (a : AssessorRec) : Bool :=
  decide (getAttr a.xml "project" = some ctx.source.id) &&
  benignXmlB ctx.source ctx.destination a.xml .assessor &&
  !a.lagged1 &&
  (match destAssessFind d ctx.destination.id slbl elbl a.albl with
   | none => false
   | some ae => alLookup (idMapGet m .experiment) a.aid == some ae.aid)

def expSecondB (ctx : Ctx) (dtypes : List String) (d : DestState) (m : IdMap)
    (slbl : String) (e : ExperimentRec) : Bool :=
  decide (getAttr e.xml "project" = some ctx.source.id) &&
  benignXmlB ctx.source ctx.destination e.xml .experiment &&
  decide (e.xsiType ∈ dtypes) &&
  !e.lagged1 &&
  (match destExpFind d ctx.destination.id slbl e.elbl with
   | none => false
   | some ee => alLookup (idMapGet m .experiment) e.eid == some ee.eid) &&
  e.scans.all (scanSecondB ctx d m slbl e.elbl) &&
  e.assessors.all (assSecondB ctx d m slbl e.elbl)

def subjSecondB (ctx : Ctx) (dtypes : List String) (d : DestState) (m : IdMap)
    (s : SubjectRec) : Bool :=
  decide (getAttr s.xml "project" = some ctx.source.id) &&
  benignXmlB ctx.source ctx.destination s.xml .subject &&
  !s.lagged &&
  (match destSubjFind d ctx.destination.id s.slbl with
   | none => false
   | some entry => alLookup (idMapGet m .subject) s.sid == some entry.sid) &&
  s.experiments.all (expSecondB ctx dtypes d m s.slbl)

end Xmigrate

namespace Xmigrate

theorem create_project_second (ctx : Ctx) (projXml : Elem) (st : MigState)
    (hben : benignXmlB ctx.source ctx.destination projXml .project = true)
    (hp : ctx.destination.id ∈ st.dest.projects)
    (hmap : alLookup (idMapGet st.idMap .project) ctx.source.id
      = some ctx.destination.id) :
    create_project ctx projXml st = .ok st := by
  obtain ⟨r, hr⟩ := map_xml_ok_of_benign ctx.source ctx.destination st.idMap projXml
    .project hben
  unfold create_project
  rw [hr]
  dsimp only
  rw [if_pos hp]
  simp only [updateIdMapSt, idsToMap]
  have hov : overwFlagB st.idMap .project ctx.source.id ctx.destination.id = false := by
    unfold overwFlagB
    rw [hmap]
    simp
  rw [hov, idMap_write_self st.idMap .project ctx.source.id ctx.destination.id hmap]
  simp

theorem create_subject_second (ctx : Ctx) (s : SubjectRec) (st : MigState) (entry : DSubj)
    (hown : getAttr s.xml "project" = some ctx.source.id)
    (hben : benignXmlB ctx.source ctx.destination s.xml .subject = true)
    (hp : ctx.destination.id ∈ st.dest.projects)
    (hlag : s.lagged = false)
    (hfind : destSubjFind st.dest ctx.destination.id s.slbl = some entry)
    (hmap : alLookup (idMapGet st.idMap .subject) s.sid = some entry.sid) :
    ∃ st', create_subject ctx s st = .ok st' ∧
      st'.dest = st.dest ∧ st'.idMap = st.idMap ∧ st'.events = st.events := by
  obtain ⟨r, hr⟩ := map_xml_ok_of_benign ctx.source ctx.destination st.idMap s.xml
    .subject hben
  unfold create_subject
  rw [hown]
  dsimp only
  rw [if_neg (fun h : ctx.source.id ≠ ctx.source.id => h rfl), hr]
  dsimp only
  rw [if_pos hp]
  have habs : ¬ ((destSubjFind st.dest ctx.destination.id s.slbl).isNone = true) := by
    rw [hfind]
    simp
  rw [if_neg habs, hlag]
  dsimp only
  rw [hfind]
  simp only [updateIdMapSt, idsToMap]
  refine ⟨_, rfl, rfl, ?_, rfl⟩
  exact idMap_write_self st.idMap .subject s.sid entry.sid hmap

theorem create_experiment_second (ctx : Ctx) (s : SubjectRec) (e : ExperimentRec)
    (st : MigState) (sentry : DSubj) (eentry : DExp)
    (hown : getAttr e.xml "project" = some ctx.source.id)
    (hben : benignXmlB ctx.source ctx.destination e.xml .experiment = true)
    (hp : ctx.destination.id ∈ st.dest.projects)
    (hlag : e.lagged1 = false)
    (hsub : destSubjFind st.dest ctx.destination.id s.slbl = some sentry)
    (hfind : destExpFind st.dest ctx.destination.id s.slbl e.elbl = some eentry)
    (hmap : alLookup (idMapGet st.idMap .experiment) e.eid = some eentry.eid) :
    ∃ st', create_experiment ctx s e st = .ok st' ∧
      st'.dest = st.dest ∧ st'.idMap = st.idMap ∧ st'.events = st.events := by
  obtain ⟨r, hr⟩ := map_xml_ok_of_benign ctx.source ctx.destination st.idMap e.xml
    .experiment hben
  unfold create_experiment
  rw [hown]
  dsimp only
  rw [if_neg (fun h : ctx.source.id ≠ ctx.source.id => h rfl), hr]
  dsimp only
  rw [if_pos hp, hsub]
  dsimp only
  have habs : ¬ ((destExpFind st.dest ctx.destination.id s.slbl e.elbl).isNone = true) := by
    rw [hfind]
    simp
  rw [if_neg habs, hlag]
  dsimp only
  rw [hfind]
  simp only [updateIdMapSt, idsToMap]
  refine ⟨_, rfl, rfl, ?_, rfl⟩
  exact idMap_write_self st.idMap .experiment e.eid eentry.eid hmap

theorem create_scan_second (ctx : Ctx) (s : SubjectRec) (e : ExperimentRec) (sc : ScanRec)
    (st : MigState) (sentry : DSubj) (eentry : DExp)
    (howne : getAttr e.xml "project" = some ctx.source.id)
    (hben : benignXmlB ctx.source ctx.destination sc.xml .scan = true)
    (hp : ctx.destination.id ∈ st.dest.projects)
    (hsub : destSubjFind st.dest ctx.destination.id s.slbl = some sentry)
    (hexp : destExpFind st.dest ctx.destination.id s.slbl e.elbl = some eentry)
    (hfind : (destScanFind st.dest ctx.destination.id s.slbl e.elbl sc.sid).isSome = true)
    (hmap : alLookup (idMapGet st.idMap .scan) sc.sid = some sc.sid) :
    ∃ st', create_scan ctx s e sc st = .ok st' ∧
      st'.dest = st.dest ∧ st'.idMap = st.idMap ∧ st'.events = st.events := by
  obtain ⟨r, hr⟩ := map_xml_ok_of_benign ctx.source ctx.destination st.idMap sc.xml
    .scan hben
  unfold create_scan
  rw [howne]
  dsimp only
  rw [if_neg (fun h : ctx.source.id ≠ ctx.source.id => h rfl), hr]
  dsimp only
  rw [if_pos hp, hsub]
  dsimp only
  rw [hexp]
  dsimp only
  have habs : ¬ ((destScanFind st.dest ctx.destination.id s.slbl e.elbl sc.sid).isNone
      = true) := by
    obtain ⟨entry, hE⟩ := Option.isSome_iff_exists.mp hfind
    rw [hE]
    simp
  rw [if_neg habs]
  simp only [updateIdMapSt, idsToMap]
  refine ⟨_, rfl, rfl, ?_, rfl⟩
  exact idMap_write_self st.idMap .scan sc.sid sc.sid hmap

theorem create_assessor_second (ctx : Ctx) (s : SubjectRec) (e : ExperimentRec)
    (a : AssessorRec) (st : MigState) (sentry : DSubj) (eentry : DExp) (aentry : DAssess)
    (howna : getAttr a.xml "project" = some ctx.source.id)
    (hben : benignXmlB ctx.source ctx.destination a.xml .assessor = true)
    (hp : ctx.destination.id ∈ st.dest.projects)
    (hlag : a.lagged1 = false)
    (hsub : destSubjFind st.dest ctx.destination.id s.slbl = some sentry)
    (hexp : destExpFind st.dest ctx.destination.id s.slbl e.elbl = some eentry)
    (hfind : destAssessFind st.dest ctx.destination.id s.slbl e.elbl a.albl = some aentry)
    (hmap : alLookup (idMapGet st.idMap .experiment) a.aid = some aentry.aid) :
    ∃ st', create_assessor ctx s e a st = .ok st' ∧
      st'.dest = st.dest ∧ st'.idMap = st.idMap ∧ st'.events = st.events := by
  obtain ⟨r, hr⟩ := map_xml_ok_of_benign ctx.source ctx.destination st.idMap a.xml
    .assessor hben
  unfold create_assessor
  rw [howna]
  dsimp only
  rw [if_neg (fun h : ctx.source.id ≠ ctx.source.id => h rfl), hr]
  dsimp only
  rw [if_pos hp, hsub]
  dsimp only
  rw [hexp]
  dsimp only
  have habs : ¬ ((destAssessFind st.dest ctx.destination.id s.slbl e.elbl a.albl).isNone
      = true) := by
    rw [hfind]
    simp
  rw [if_neg habs, hlag]
  dsimp only
  rw [hfind]
  simp only [updateIdMapSt, idsToMap]
  refine ⟨_, rfl, rfl, ?_, rfl⟩
  exact idMap_write_self st.idMap .experiment a.aid aentry.aid hmap

end Xmigrate

namespace Xmigrate

theorem c8_scans (ctx : Ctx) (s : SubjectRec) (e : ExperimentRec) (scans : List ScanRec)
    (sentry : DSubj) (eentry : DExp)
    (howne : getAttr e.xml "project" = some ctx.source.id) :
    ∀ st : MigState, scans.all (scanSecondB ctx st.dest st.idMap s.slbl e.elbl) = true →
    ctx.destination.id ∈ st.dest.projects →
    destSubjFind st.dest ctx.destination.id s.slbl = some sentry →
    destExpFind st.dest ctx.destination.id s.slbl e.elbl = some eentry →
    ∃ st', walkList (create_scan ctx s e) scans st = .ok st' ∧
      st'.dest = st.dest ∧ st'.idMap = st.idMap ∧ st'.events = st.events := by
  induction scans with
  | nil =>
    intro st _ _ _ _
    exact ⟨st, rfl, rfl, rfl, rfl⟩
  | cons sc rest ih =>
    intro st hall hp hsub hexp
    rw [List.all_cons, Bool.and_eq_true] at hall
    obtain ⟨hsc, hrest⟩ := hall
    simp only [scanSecondB, Bool.and_eq_true, beq_iff_eq] at hsc
    obtain ⟨⟨hben, hfindS⟩, hmap⟩ := hsc
    obtain ⟨st1, hok, hd1, hm1, he1⟩ :=
      create_scan_second ctx s e sc st sentry eentry howne hben hp hsub hexp hfindS hmap
    obtain ⟨st2, hok2, hd2, hm2, he2⟩ :=
      ih st1 (by rw [hd1, hm1]; exact hrest) (by rw [hd1]; exact hp)
        (by rw [hd1]; exact hsub) (by rw [hd1]; exact hexp)
    refine ⟨st2, ?_, ?_, ?_, ?_⟩
    · rw [walkList_cons, hok, then_ok, hok2]
    · rw [hd2, hd1]
    · rw [hm2, hm1]
    · rw [he2, he1]

theorem c8_assessors (ctx : Ctx) (s : SubjectRec) (e : ExperimentRec)
    (assessors : List AssessorRec) (sentry : DSubj) (eentry : DExp) :
    ∀ st : MigState, assessors.all (assSecondB ctx st.dest st.idMap s.slbl e.elbl) = true →
    ctx.destination.id ∈ st.dest.projects →
    destSubjFind st.dest ctx.destination.id s.slbl = some sentry →
    destExpFind st.dest ctx.destination.id s.slbl e.elbl = some eentry →
    ∃ st', walkList (create_assessor ctx s e) assessors st = .ok st' ∧
      st'.dest = st.dest ∧ st'.idMap = st.idMap ∧ st'.events = st.events := by
  induction assessors with
  | nil =>
    intro st _ _ _ _
    exact ⟨st, rfl, rfl, rfl, rfl⟩
  | cons a rest ih =>
    intro st hall hp hsub hexp
    rw [List.all_cons, Bool.and_eq_true] at hall
    obtain ⟨ha, hrest⟩ := hall
    simp only [assSecondB, Bool.and_eq_true, Bool.not_eq_true', decide_eq_true_eq] at ha
    obtain ⟨⟨⟨howna, hben⟩, hlag⟩, hfm⟩ := ha
    cases hF : destAssessFind st.dest ctx.destination.id s.slbl e.elbl a.albl with
    | none =>
      rw [hF] at hfm
      simp at hfm
    | some aentry =>
      rw [hF] at hfm
      dsimp only at hfm
      rw [beq_iff_eq] at hfm
      obtain ⟨st1, hok, hd1, hm1, he1⟩ :=
        create_assessor_second ctx s e a st sentry eentry aentry howna hben hp hlag hsub
          hexp hF hfm
      obtain ⟨st2, hok2, hd2, hm2, he2⟩ :=
        ih st1 (by rw [hd1, hm1]; exact hrest) (by rw [hd1]; exact hp)
          (by rw [hd1]; exact hsub) (by rw [hd1]; exact hexp)
      refine ⟨st2, ?_, ?_, ?_, ?_⟩
      · rw [walkList_cons, hok, then_ok, hok2]
      · rw [hd2, hd1]
      · rw [hm2, hm1]
      · rw [he2, he1]

theorem c8_processExperiment (ctx : Ctx) (dtypes : List String) (s : SubjectRec)
    (e : ExperimentRec) (st : MigState) (sentry : DSubj)
    (he : expSecondB ctx dtypes st.dest st.idMap s.slbl e = true)
    (hp : ctx.destination.id ∈ st.dest.projects)
    (hsub : destSubjFind st.dest ctx.destination.id s.slbl = some sentry) :
    ∃ st', processExperiment ctx dtypes s e st = .ok st' ∧
      st'.dest = st.dest ∧ st'.idMap = st.idMap ∧ st'.events = st.events := by
  unfold expSecondB at he
  simp only [Bool.and_eq_true, Bool.not_eq_true', decide_eq_true_eq] at he
  obtain ⟨⟨⟨⟨⟨⟨hown, hben⟩, hdt⟩, hlag⟩, hfm⟩, hscans⟩, hass⟩ := he
  cases hF : destExpFind st.dest ctx.destination.id s.slbl e.elbl with
  | none =>
    rw [hF] at hfm
    simp at hfm
  | some eentry =>
    rw [hF] at hfm
    dsimp only at hfm
    rw [beq_iff_eq] at hfm
    obtain ⟨st1, hokE, hd1, hm1, he1⟩ :=
      create_experiment_second ctx s e st sentry eentry hown hben hp hlag hsub hF hfm
    obtain ⟨st2, hokS, hd2, hm2, he2⟩ :=
      c8_scans ctx s e e.scans sentry eentry hown st1 (by rw [hd1, hm1]; exact hscans)
        (by rw [hd1]; exact hp) (by rw [hd1]; exact hsub) (by rw [hd1]; exact hF)
    obtain ⟨st3, hokA, hd3, hm3, he3⟩ :=
      c8_assessors ctx s e e.assessors sentry eentry st2
        (by rw [hd2, hm2, hd1, hm1]; exact hass)
        (by rw [hd2, hd1]; exact hp) (by rw [hd2, hd1]; exact hsub)
        (by rw [hd2, hd1]; exact hF)
    refine ⟨st3, ?_, ?_, ?_, ?_⟩
    · unfold processExperiment
      rw [if_neg (fun hq => hq hdt), hokE, then_ok, hokS, then_ok, hokA]
    · rw [hd3, hd2, hd1]
    · rw [hm3, hm2, hm1]
    · rw [he3, he2, he1]

theorem c8_processSubject (ctx : Ctx) (dtypes : List String) (s : SubjectRec)
    (st : MigState)
    (hs : subjSecondB ctx dtypes st.dest st.idMap s = true)
    (hp : ctx.destination.id ∈ st.dest.projects) :
    ∃ st', processSubject ctx dtypes s st = .ok st' ∧
      st'.dest = st.dest ∧ st'.idMap = st.idMap ∧ st'.events = st.events := by
  unfold subjSecondB at hs
  simp only [Bool.and_eq_true, Bool.not_eq_true', decide_eq_true_eq] at hs
  obtain ⟨⟨⟨⟨hown, hben⟩, hlag⟩, hfm⟩, hexps⟩ := hs
  cases hF : destSubjFind st.dest ctx.destination.id s.slbl with
  | none =>
    rw [hF] at hfm
    simp at hfm
  | some entry =>
    rw [hF] at hfm
    dsimp only at hfm
    rw [beq_iff_eq] at hfm
    obtain ⟨st1, hokS, hd1, hm1, he1⟩ :=
      create_subject_second ctx s st entry hown hben hp hlag hF hfm
    have hexps1 : ∀ st0 : MigState, st0.dest = st.dest → st0.idMap = st.idMap →
        s.experiments.all (expSecondB ctx dtypes st0.dest st0.idMap s.slbl) = true := by
      intro st0 hd hm
      rw [hd, hm]
      exact hexps
    have hwalk : ∀ exps : List ExperimentRec,
        exps.all (expSecondB ctx dtypes st.dest st.idMap s.slbl) = true →
        ∀ st0 : MigState, st0.dest = st.dest → st0.idMap = st.idMap →
        ∃ st', walkList (processExperiment ctx dtypes s) exps st0 = .ok st' ∧
          st'.dest = st.dest ∧ st'.idMap = st.idMap ∧ st'.events = st0.events := by
      intro exps
      induction exps with
      | nil =>
        intro _ st0 hd hm
        exact ⟨st0, rfl, hd, hm, rfl⟩
      | cons e rest ih =>
        intro hall st0 hd hm
        rw [List.all_cons, Bool.and_eq_true] at hall
        obtain ⟨hex, hrest⟩ := hall
        obtain ⟨stA, hokA, hdA, hmA, heA⟩ :=
          c8_processExperiment ctx dtypes s e st0 entry
            (by rw [hd, hm]; exact hex) (by rw [hd]; exact hp) (by rw [hd]; exact hF)
        obtain ⟨stB, hokB, hdB, hmB, heB⟩ :=
          ih hrest stA (by rw [hdA, hd]) (by rw [hmA, hm])
        refine ⟨stB, ?_, ?_, ?_, ?_⟩
        · rw [walkList_cons, hokA, then_ok, hokB]
        · exact hdB
        · exact hmB
        · rw [heB, heA]
    obtain ⟨st2, hok2, hd2, hm2, he2⟩ :=
      hwalk s.experiments hexps st1 hd1 hm1
    refine ⟨st2, ?_, ?_, ?_, ?_⟩
    · unfold processSubject
      rw [hokS, then_ok, hok2]
    · exact hd2
    · exact hm2
    · rw [he2, he1]

end Xmigrate

namespace Xmigrate

theorem c8_subjects (ctx : Ctx) (dtypes : List String) (subjects : List SubjectRec) :
    ∀ st : MigState, subjects.all (subjSecondB ctx dtypes st.dest st.idMap) = true →
    ctx.destination.id ∈ st.dest.projects →
    ∃ st', walkList (processSubject ctx dtypes) subjects st = .ok st' ∧
      st'.dest = st.dest ∧ st'.idMap = st.idMap ∧ st'.events = st.events := by
  induction subjects with
  | nil =>
    intro st _ _
    exact ⟨st, rfl, rfl, rfl, rfl⟩
  | cons s rest ih =>
    intro st hall hp
    rw [List.all_cons, Bool.and_eq_true] at hall
    obtain ⟨hs, hrest⟩ := hall
    obtain ⟨st1, hok, hd1, hm1, he1⟩ := c8_processSubject ctx dtypes s st hs hp
    obtain ⟨st2, hok2, hd2, hm2, he2⟩ :=
      ih st1 (by rw [hd1, hm1]; exact hrest) (by rw [hd1]; exact hp)
    refine ⟨st2, ?_, ?_, ?_, ?_⟩
    · rw [walkList_cons, hok, then_ok, hok2]
    · rw [hd2, hd1]
    · rw [hm2, hm1]
    · rw [he2, he1]

/-- C8: a second run of the resource-creation walk against the destination
state left by a first run — every resource already exists (projects and
scans found by identifier, subjects, experiments and assessors by label)
and the identifier map already holds each found entry's identifier — issues
no create call at all (the event trace is unchanged), leaves the identifier
map unchanged, and leaves the destination state unchanged. -/
theorem c8_theorem (ctx : Ctx) (projXml : Elem) (subjects : List SubjectRec)
    (dtypes : List String) (st : MigState)
    (hproj : benignXmlB ctx.source ctx.destination projXml .project = true)
    (hp : ctx.destination.id ∈ st.dest.projects)
    (hmapP : alLookup (idMapGet st.idMap .project) ctx.source.id
      = some ctx.destination.id)
    (hall : subjects.all (subjSecondB ctx dtypes st.dest st.idMap) = true) :
    ∃ st', create_resources ctx projXml subjects dtypes false st = .ok st' ∧
      st'.events = st.events ∧ st'.idMap = st.idMap ∧ st'.dest = st.dest := by
  obtain ⟨st2, hok2, hd2, hm2, he2⟩ := c8_subjects ctx dtypes subjects st hall hp
  refine ⟨st2, ?_, he2, hm2, hd2⟩
  unfold create_resources
  rw [create_project_second ctx projXml st hproj hp hmapP, then_ok]
  exact hok2

end Xmigrate

namespace Xmigrate

def assOkNoLagW : AssessorRec :=
  { aid := "A1", albl := "A1L", xml := ownXml "A1", lagged1 := false, lagged2 := false }

def expNoLagW : ExperimentRec :=
  { eid := "E1", elbl := "E1L", xsiType := "xnat:mrSessionData", xml := ownXml "E1",
    lagged1 := false, lagged2 := false, scans := [scanOkW], assessors := [assOkNoLagW] }

def subjNoLagW : SubjectRec :=
  { sid := "S1", slbl := "S1L", xml := ownXml "S1", lagged := false,
    experiments := [expNoLagW] }

/-- The state left by a completed first run over one subject with one
experiment, one scan and one assessor and no listing lag. -/
def c8st1 : MigState :=
  (create_resources ctxW projXmlW [subjNoLagW] dtypesW false c2st0).state

/-- C8 witness: against the destination state and identifier map left by an
actual first run, the second run is a no-op on events, identifier map and
destination state. -/
theorem c8_witness :
    ∃ st', create_resources ctxW projXmlW [subjNoLagW] dtypesW false c8st1 = .ok st' ∧
      st'.events = c8st1.events ∧ st'.idMap = c8st1.idMap ∧ st'.dest = c8st1.dest :=
  c8_theorem ctxW projXmlW [subjNoLagW] dtypesW c8st1 (by decide) (by decide) (by decide)
    (by decide)

end Xmigrate
